import Mathlib

/-!
Verification development for the contract coordinator of a sharded,
replicated key-value store.  The definitions below are a shallow embedding
of `src/clustering/table_contract/coordinator/calculate_contracts.cc`.

Server ids, branch ids, contract ids and state timestamps are opaque values
in the source (UUIDs / monotone counters); they are modelled as natural
numbers.  `std::set` becomes `Finset`, `std::map` keyed lookup becomes an
association list with `List.lookup`, `boost::optional` becomes `Option`,
and the connectivity `watchable_map_t` becomes a boolean predicate on pairs
(an entry `(x, y)` is present iff the predicate returns `true`).
-/

abbrev server_id_t := Nat

/-- Modelled from the spec: a distinguished "nil" server id denotes "unset"
(`server_id_t::is_nil()` in the source tree, outside `src/`). -/
def nil_server : server_id_t := 0

abbrev branch_id_t := Nat
abbrev contract_id_t := Nat
abbrev state_timestamp_t := Nat

/-- The ack states of `contract_ack_t::state_t`. -/
inductive ack_state_t
  | primary_need_branch
  | primary_ready
  | secondary_need_primary
  | secondary_streaming
  | secondary_backfilling
  | nothing
deriving DecidableEq

/-- Modelled from the spec: `contract_t::primary_t` (defined outside `src/`):
record `{ server, hand_over : optional server_id, warm_shutdown : bool }`. -/
structure primary_t where
  server : server_id_t
  hand_over : Option server_id_t
  warm_shutdown : Bool
deriving DecidableEq

/-- Modelled from the spec: `contract_t` (defined outside `src/`): per-region
declaration with `replicas`, `voters`, optional `temp_voters`, optional
`primary` and the `branch` id. -/
structure contract_t where
  replicas : Finset server_id_t
  voters : Finset server_id_t
  temp_voters : Option (Finset server_id_t)
  primary : Option primary_t
  branch : branch_id_t
deriving DecidableEq

/-- Modelled from the spec: the per user-shard configuration surface
(`table_config_t::shard_t`, outside `src/`): `all_replicas`,
`voting_replicas()` and a possibly-nil `primary_replica`. -/
structure shard_config_t where
  all_replicas : Finset server_id_t
  voting_replicas : Finset server_id_t
  primary_replica : server_id_t
deriving DecidableEq

/-- `contract_ack_frag_t` from the source: a homogeneous projection of a
contract ack over one sub-region. -/
structure contract_ack_frag_t where
  state : ack_state_t
  version : Option state_timestamp_t
  branch : Option branch_id_t
deriving DecidableEq

/-- The `std::map<server_id_t, contract_ack_frag_t>` argument of
`calculate_contract`; keys are unique in the source. -/
abbrev acks_map_t := List (server_id_t × contract_ack_frag_t)

/-- The connectivity map: `conn x y = true` iff the entry `(x, y)` is present,
meaning the coordinator can see server `x` and server `x` can see server `y`. -/
abbrev connections_map_t := server_id_t → server_id_t → Bool

/-- `invisible_to_majority_of_set()` from the source: `target` definitely
cannot be seen by a majority of `judges`.  A judge `s` counts as seeing
`target` if `(s, target)` is in the connections map or `(s, s)` is not. -/
def invisible_to_majority_of_set (target : server_id_t) (judges : Finset server_id_t)
    (connections_map : connections_map_t) : Bool :=
  let count := (judges.filter (fun s =>
    connections_map s target = true ∨ ¬ connections_map s s = true)).card
  ! decide (count > judges.card / 2)

theorem orderedInsert_nat_left_comm (a b : Nat) (l : List Nat) :
    List.orderedInsert (· ≤ ·) a (List.orderedInsert (· ≤ ·) b l) =
      List.orderedInsert (· ≤ ·) b (List.orderedInsert (· ≤ ·) a l) := by
  induction l with
  | nil =>
    simp only [List.orderedInsert]
    by_cases hab : a ≤ b <;> by_cases hba : b ≤ a <;> simp [hab, hba] <;> omega
  | cons c l ih =>
    simp only [List.orderedInsert]
    by_cases hbc : b ≤ c <;> by_cases hac : a ≤ c
    · by_cases hab : a ≤ b <;> by_cases hba : b ≤ a <;>
        simp [List.orderedInsert, hbc, hac, hab, hba] <;> omega
    · have hab : ¬ a ≤ b := by omega
      simp [List.orderedInsert, hbc, hac, hab]
    · have hba : ¬ b ≤ a := by omega
      simp [List.orderedInsert, hbc, hac, hba]
    · simp [List.orderedInsert, hbc, hac, ih]

instance : LeftCommutative (fun (a : Nat) (l : List Nat) => List.orderedInsert (· ≤ ·) a l) :=
  ⟨fun a b l => orderedInsert_nat_left_comm a b l⟩

/-- Ascending enumeration of a finite set of server ids; models iteration
over a `std::set<server_id_t>` (which visits elements in increasing order). -/
def finset_asc (s : Finset server_id_t) : List server_id_t :=
  Multiset.foldr (fun a l => List.orderedInsert (· ≤ ·) a l) [] s.val

/-- Looking a server up in an acks map and checking its state; models
`acks.count(server) == 1 && acks.at(server).state == st`. -/
def ack_state_is (acks : acks_map_t) (server : server_id_t) (st : ack_state_t) : Bool :=
  match List.lookup server acks with
  | some frag => decide (frag.state = st)
  | none => false

/-- The per-server test in the `num_streaming` count of `calculate_contract`:
the server has sent an ack and either it is `secondary_streaming` or it is
the existing primary. -/
def streaming_or_primary (old_c : contract_t) (acks : acks_map_t)
    (server : server_id_t) : Bool :=
  match List.lookup server acks with
  | some frag =>
      decide (frag.state = ack_state_t.secondary_streaming) ||
        (match old_c.primary with
         | some p => decide (p.server = server)
         | none => false)
  | none => false

/-- The `num_streaming` counter of `calculate_contract`, over the new voting
set `config.voting_replicas()`. -/
def num_streaming (old_c : contract_t) (config_voting_replicas : Finset server_id_t)
    (acks : acks_map_t) : Nat :=
  (config_voting_replicas.filter
    (fun server => streaming_or_primary old_c acks server = true)).card

/-- The old primary exists and has acked `primary_ready`. -/
def primary_ready_acked (old_c : contract_t) (acks : acks_map_t) : Bool :=
  match old_c.primary with
  | some p => ack_state_is acks p.server ack_state_t.primary_ready
  | none => false

/-- The condition under which `calculate_contract` begins a voter change. -/
def begin_change_cond (old_c : contract_t) (config : shard_config_t)
    (acks : acks_map_t) : Bool :=
  decide (old_c.temp_voters = none) &&
    decide (old_c.voters ≠ config.voting_replicas) &&
    decide (num_streaming old_c config.voting_replicas acks >
      config.voting_replicas.card / 2)

/-- Steps (b) and (c) of `calculate_contract`: begin a voter change by
setting `temp_voters`, or commit one by moving `temp_voters` into `voters`.
Returns the new `(voters, temp_voters)`. -/
def voters_after_change (old_c : contract_t) (config : shard_config_t)
    (acks : acks_map_t) : Finset server_id_t × Option (Finset server_id_t) :=
  let temp_voters2 : Option (Finset server_id_t) :=
    if begin_change_cond old_c config acks = true
    then some config.voting_replicas
    else old_c.temp_voters
  if old_c.temp_voters.isSome ∧ primary_ready_acked old_c acks = true then
    (temp_voters2.getD old_c.voters, none)
  else
    (old_c.voters, temp_voters2)

/-- Membership test of the `visible_voters` loop body in `calculate_contract`
(the three `continue` conditions, negated). -/
def visible_voter_b (voters : Finset server_id_t)
    (temp_voters : Option (Finset server_id_t))
    (connections_map : connections_map_t) (server : server_id_t) : Bool :=
  (decide (server ∈ voters) ||
    (match temp_voters with
     | some tv => decide (server ∈ tv)
     | none => false)) &&
  ! invisible_to_majority_of_set server voters connections_map &&
  (match temp_voters with
   | some tv => ! invisible_to_majority_of_set server tv connections_map
   | none => true)

/-- The `visible_voters` set of `calculate_contract`. -/
def visible_voters_of (replicas voters : Finset server_id_t)
    (temp_voters : Option (Finset server_id_t))
    (connections_map : connections_map_t) : Finset server_id_t :=
  replicas.filter
    (fun server => visible_voter_b voters temp_voters connections_map server = true)

/-- The removal condition of the pruning loop of `calculate_contract`: the
server is no longer in `config.all_replicas` and is in neither voter set. -/
def prune_removed_b (config : shard_config_t) (voters : Finset server_id_t)
    (temp_voters : Option (Finset server_id_t)) (server : server_id_t) : Bool :=
  decide (server ∉ config.all_replicas) && decide (server ∉ voters) &&
    (match temp_voters with
     | some tv => decide (server ∉ tv)
     | none => true)

/-- The `sorted_candidates` vector of the election step: voters whose ack
state is `secondary_need_primary`, as `(version timestamp, server id)` pairs
in ascending lexicographic order.  (The source dereferences the optional
version of each candidate; a missing version there is undefined behaviour,
modelled with `Option.getD 0`.) -/
def lex_le (a b : Nat × Nat) : Prop :=
  a.1 < b.1 ∨ (a.1 = b.1 ∧ a.2 ≤ b.2)

instance lex_le_decidable : DecidableRel lex_le := by
  intro a b
  unfold lex_le
  infer_instance

instance lex_le_total : IsTotal (Nat × Nat) lex_le :=
  ⟨by
    intro a b
    obtain ⟨a1, a2⟩ := a
    obtain ⟨b1, b2⟩ := b
    show (a1 < b1 ∨ (a1 = b1 ∧ a2 ≤ b2)) ∨ (b1 < a1 ∨ (b1 = a1 ∧ b2 ≤ a2))
    omega⟩

instance lex_le_trans : IsTrans (Nat × Nat) lex_le :=
  ⟨by
    intro a b c hab hbc
    obtain ⟨a1, a2⟩ := a
    obtain ⟨b1, b2⟩ := b
    obtain ⟨c1, c2⟩ := c
    have h1 : a1 < b1 ∨ (a1 = b1 ∧ a2 ≤ b2) := hab
    have h2 : b1 < c1 ∨ (b1 = c1 ∧ b2 ≤ c2) := hbc
    show a1 < c1 ∨ (a1 = c1 ∧ a2 ≤ c2)
    omega⟩

def sorted_candidates_of (voters : Finset server_id_t) (acks : acks_map_t) :
    List (state_timestamp_t × server_id_t) :=
  List.insertionSort lex_le
    ((finset_asc voters).filterMap (fun server =>
      match List.lookup server acks with
      | some frag =>
          if frag.state = ack_state_t.secondary_need_primary
          then some (frag.version.getD 0, server)
          else none
      | none => none))

/-- The `eligible_candidates` loop of the election step: walking the sorted
candidate list, a candidate at index `i` is pushed when it is in
`visible_voters` and `i + 1` plus the equal-timestamp run right after it
exceeds half the voter count. -/
def eligible_loop (visible_voters : Finset server_id_t) (half : Nat) :
    Nat → List (state_timestamp_t × server_id_t) → List server_id_t
  | _, [] => []
  | i, c :: rest =>
    let tail := eligible_loop visible_voters half (i + 1) rest
    if c.2 ∈ visible_voters ∧
        i + 1 + (rest.takeWhile (fun d => decide (d.1 = c.1))).length > half
    then c.2 :: tail
    else tail

/-- Step (f) of `calculate_contract`: electing a primary when the old
contract has none. -/
def elect_primary (voters visible_voters : Finset server_id_t) (acks : acks_map_t)
    (config : shard_config_t) : Option primary_t :=
  let eligible_candidates :=
    eligible_loop visible_voters (voters.card / 2) 0 (sorted_candidates_of voters acks)
  if config.primary_replica ∈ eligible_candidates then
    some { server := config.primary_replica, hand_over := none, warm_shutdown := false }
  else if eligible_candidates ≠ [] then
    if config.primary_replica ≠ nil_server ∧
        config.primary_replica ∈ visible_voters ∧
        List.lookup config.primary_replica acks = none then
      none
    else
      (eligible_candidates.getLast?).map
        (fun s => { server := s, hand_over := none, warm_shutdown := false })
  else
    none

/-- Step (g) of `calculate_contract`: handling an existing primary
(auto-failover, hand-over management). -/
def handle_existing_primary (old_p : primary_t) (config : shard_config_t)
    (acks : acks_map_t) (visible_voters : Finset server_id_t)
    (should_kill0 : Bool) : Option primary_t :=
  let should_kill := should_kill0 || decide (old_p.server ∉ visible_voters)
  if should_kill = true then
    none
  else if old_p.server ≠ config.primary_replica then
    if old_p.hand_over ≠ some config.primary_replica then
      if ack_state_is acks config.primary_replica ack_state_t.secondary_streaming = true ∧
          config.primary_replica ∈ visible_voters then
        some { old_p with hand_over := some config.primary_replica }
      else if old_p.hand_over.isSome then
        some { old_p with hand_over := none }
      else
        some old_p
    else
      if ack_state_is acks old_p.server ack_state_t.primary_ready = true then
        none
      else if config.primary_replica ∉ visible_voters then
        some { old_p with hand_over := none }
      else
        some old_p
  else
    if old_p.hand_over.isSome then
      some { old_p with hand_over := none }
    else
      some old_p

/-- `calculate_contract()` from the source: computes the new contract for a
homogeneous region, together with the log lines it prints (empty when the
log prefix is empty).  The steps run in source order: grow `replicas`,
begin/commit a voter change, compute `visible_voters`, prune departed
replicas, then either elect a primary (none present) or manage the existing
one. -/
def calculate_contract (old_c : contract_t) (config : shard_config_t)
    (acks : acks_map_t) (connections_map : connections_map_t)
    (log_pfx : String) : contract_t × List String :=
  let replicas1 : Finset server_id_t := old_c.replicas ∪ config.all_replicas
  let vt := voters_after_change old_c config acks
  let voters3 := vt.1
  let temp_voters3 := vt.2
  let visible_voters := visible_voters_of replicas1 voters3 temp_voters3 connections_map
  let replicas4 := replicas1.filter (fun s =>
    ¬ (s ∈ old_c.replicas ∧ prune_removed_b config voters3 temp_voters3 s = true))
  let should_kill0 : Bool :=
    match old_c.primary with
    | some p =>
        decide (p.server ∈ old_c.replicas) &&
          prune_removed_b config voters3 temp_voters3 p.server
    | none => false
  let primary_final : Option primary_t :=
    match old_c.primary with
    | none => elect_primary voters3 visible_voters acks config
    | some p => handle_existing_primary p config acks visible_voters should_kill0
  let logs : List String :=
    if log_pfx = "" then [] else
      (if begin_change_cond old_c config acks = true then
        [log_pfx ++ ": Beginning replica set change."] else []) ++
      (if old_c.temp_voters.isSome ∧ primary_ready_acked old_c acks = true then
        [log_pfx ++ ": Committed replica set change."] else []) ++
      (match old_c.primary with
       | some p =>
         (if should_kill0 = true then
           [log_pfx ++ ": Stopping server " ++ toString p.server ++
             " as primary because it is no longer a voter."] else []) ++
         (if should_kill0 = false ∧ p.server ∉ visible_voters then
           [log_pfx ++ ": Stopping server " ++ toString p.server ++
             " as primary because a majority of voters cannot reach it."] else []) ++
         (if (should_kill0 || decide (p.server ∉ visible_voters)) = false ∧
             p.server ≠ config.primary_replica ∧
             p.hand_over ≠ some config.primary_replica ∧
             ack_state_is acks config.primary_replica
               ack_state_t.secondary_streaming = true ∧
             config.primary_replica ∈ visible_voters then
           [log_pfx ++ ": Handing over primary from " ++ toString p.server ++
             " to " ++ toString config.primary_replica ++
             " to match table config."] else [])
       | none =>
         match elect_primary voters3 visible_voters acks config with
         | some q => [log_pfx ++ ": Selected server " ++ toString q.server ++
             " as primary."]
         | none => [])
  ({ replicas := replicas4, voters := voters3, temp_voters := temp_voters3,
     primary := primary_final, branch := old_c.branch }, logs)

/-!
The driver `calculate_all_contracts()`.  The region and `region_map_t`
machinery it uses lives outside `src/`; per the spec it is a rectangle
calculus on (hash, key-range) space with intersection, emptiness,
canonical (hash-begin, key-begin) ordering, a partitioned total map with
`visit` / `map` / `map_multi` / coalescing `from_unordered_fragments`,
and a branch-history "common ancestor" operator.  Those collaborators are
modelled below; hash values and keys are natural numbers and the hash
space size and CPU sharding factor are fixed small constants.
-/

/-- Modelled from the spec: a region is a rectangle in (hash, key) space;
`beg`/`hash_end` bound the hash interval (`reg.beg`, `reg.end` in the
source), `kbeg`/`kend` the key interval. -/
structure region_t where
  beg : Nat
  hash_end : Nat
  kbeg : Nat
  kend : Nat
deriving DecidableEq

def region_is_empty (r : region_t) : Bool :=
  decide (r.hash_end ≤ r.beg) || decide (r.kend ≤ r.kbeg)

def region_intersection (a b : region_t) : region_t :=
  { beg := max a.beg b.beg, hash_end := min a.hash_end b.hash_end,
    kbeg := max a.kbeg b.kbeg, kend := min a.kend b.kend }

/-- The (up to four) rectangles making up `a` minus `b`. -/
def region_subtract (a b : region_t) : List region_t :=
  ([{ beg := a.beg, hash_end := min a.hash_end b.beg, kbeg := a.kbeg, kend := a.kend },
    { beg := max a.beg b.hash_end, hash_end := a.hash_end, kbeg := a.kbeg, kend := a.kend },
    { beg := max a.beg b.beg, hash_end := min a.hash_end b.hash_end,
      kbeg := a.kbeg, kend := min a.kend b.kbeg },
    { beg := max a.beg b.beg, hash_end := min a.hash_end b.hash_end,
      kbeg := max a.kbeg b.kend, kend := a.kend }]).filter
    (fun r => region_is_empty r = false)

/-- Modelled from the spec: regions are ordered by (hash-begin, key-begin). -/
def region_le (a b : region_t) : Prop :=
  a.beg < b.beg ∨ (a.beg = b.beg ∧ a.kbeg ≤ b.kbeg)

instance region_le_decidable : DecidableRel region_le := by
  intro a b
  unfold region_le
  infer_instance

/-- Modelled from the spec: `region_map_t<T>`, a total function from a region
to `T` held as a list of disjoint rectangles with their values. -/
abbrev region_map (α : Type) := List (region_t × α)

def region_map_sort {α : Type} (m : region_map α) : region_map α :=
  List.insertionSort (fun a b => region_le a.1 b.1) m

/-- `region_map_t::visit`: enumerate the entries restricted to `r`, in
canonical region order. -/
def region_map_visit {α : Type} (m : region_map α) (r : region_t) :
    List (region_t × α) :=
  (region_map_sort m).filterMap (fun e =>
    let i := region_intersection e.1 r
    if region_is_empty i = true then none else some (i, e.2))

/-- `region_map_t::visit_mutable` over `r` with value update `f`: entries
overlapping `r` are split, the overlap updated, the remainder kept. -/
def region_map_update {α : Type} (m : region_map α) (r : region_t) (f : α → α) :
    region_map α :=
  m.flatMap (fun e =>
    let i := region_intersection e.1 r
    if region_is_empty i = true then [e]
    else (i, f e.2) :: (region_subtract e.1 r).map (fun s => (s, e.2)))

/-- `region_map_t::map_multi` over `r`: the callback returns a region map
over each visited sub-region. -/
def region_map_map_multi {α β : Type} (m : region_map α) (r : region_t)
    (f : region_t → α → region_map β) : region_map β :=
  (region_map_visit m r).flatMap (fun e => f e.1 e.2)

/-- `region_map_t::map` over `r`. -/
def region_map_map {α β : Type} (m : region_map α) (r : region_t) (f : α → β) :
    region_map β :=
  (region_map_visit m r).map (fun e => (e.1, f e.2))

def region_join (a b : region_t) : region_t :=
  { beg := min a.beg b.beg, hash_end := max a.hash_end b.hash_end,
    kbeg := min a.kbeg b.kbeg, kend := max a.kend b.kend }

/-- Two rectangles whose union is again a rectangle: equal hash ranges and
adjacent key ranges, or equal key ranges and adjacent hash ranges. -/
def regions_adjacent (a b : region_t) : Bool :=
  (decide (a.beg = b.beg) && decide (a.hash_end = b.hash_end) &&
    (decide (a.kend = b.kbeg) || decide (b.kend = a.kbeg))) ||
  (decide (a.kbeg = b.kbeg) && decide (a.kend = b.kend) &&
    (decide (a.hash_end = b.beg) || decide (b.hash_end = a.beg)))

/-- One coalescing pass: merge the first pair of adjacent, value-equal
fragments, if any. -/
def coalesce_step {α : Type} [DecidableEq α] :
    List (region_t × α) → Option (List (region_t × α))
  | [] => none
  | e :: rest =>
    match rest.findIdx? (fun f => decide (f.2 = e.2) && regions_adjacent e.1 f.1) with
    | some j =>
      match rest[j]? with
      | some f => some ((region_join e.1 f.1, e.2) :: rest.eraseIdx j)
      | none => none
    | none => (coalesce_step rest).map (fun l => e :: l)

def coalesce_fuel {α : Type} [DecidableEq α] :
    Nat → List (region_t × α) → List (region_t × α)
  | 0, l => l
  | n + 1, l =>
    match coalesce_step l with
    | some l2 => coalesce_fuel n l2
    | none => l

/-- Modelled from the spec: `region_map_t::from_unordered_fragments`, which
coalesces fragments whose adjacent regions carry equal values. -/
def region_map_from_unordered_fragments {α : Type} [DecidableEq α]
    (regions : List region_t) (values : List α) : region_map α :=
  region_map_sort (coalesce_fuel regions.length (regions.zip values))

/-- Modelled from the spec: branch history data, a set of edges of a
directed tree of branch ids; it is only combined and handed to the
common-ancestor operator, never interpreted here. -/
abbrev branch_history_t := List (branch_id_t × branch_id_t)

structure version_t where
  branch : branch_id_t
  timestamp : state_timestamp_t
deriving DecidableEq

/-- `contract_ack_t`: a replica's report, with a heterogeneous region map of
versions and its own branch-history contributions. -/
structure contract_ack_t where
  state : ack_state_t
  version : Option (region_map version_t)
  branch : Option branch_id_t
  branch_history : branch_history_t

/-- Modelled from the spec: the type of the external `common_branch`
operator (`version_find_branch_common` in the source tree, outside `src/`):
it projects a version onto the path from the root to the target branch,
yielding a region map of versions.  The driver is parametric in it. -/
abbrev version_find_branch_common_t :=
  branch_history_t → version_t → branch_id_t → region_t → region_map version_t

/-- `break_ack_into_fragments()` from the source: split a heterogeneous ack
into homogeneous per-sub-region fragments, fragmenting over the canonical
branches and then over the ack's version structure. -/
def break_ack_into_fragments (vfbc : version_find_branch_common_t)
    (region : region_t) (ack : contract_ack_t)
    (current_branches : region_map branch_id_t)
    (raft_branch_history : branch_history_t) : region_map contract_ack_frag_t :=
  match ack.version with
  | none => [(region, { state := ack.state, version := none, branch := ack.branch })]
  | some version_map =>
    let combined := raft_branch_history ++ ack.branch_history
    region_map_map_multi current_branches region (fun branch_reg branch =>
      region_map_map_multi version_map branch_reg (fun reg vers =>
        region_map_map (vfbc combined vers branch reg) reg (fun common_vers =>
          { state := ack.state, version := some common_vers.timestamp,
            branch := ack.branch })))

/-- Modelled from the spec: the table configuration, a list of per-shard
configurations together with the key range of each user shard
(`shard_scheme.get_shard_range`). -/
structure table_config_t where
  shards : List shard_config_t
  shard_scheme : List (Nat × Nat)

/-- Modelled from the spec: the Raft-replicated snapshot consumed by the
coordinator. -/
structure table_raft_state_t where
  contracts : List (contract_id_t × region_t × contract_t)
  config : table_config_t
  current_branches : region_map branch_id_t
  branch_history : branch_history_t

/-- The observation-layer ack map, keyed by (server id, contract id); keys
are unique in the source. -/
abbrev acks_all_t := List ((server_id_t × contract_id_t) × contract_ack_t)

/-- Modelled from the spec: the hash space size (2^64 in the real system),
kept small here. -/
def HASH_REGION_HASH_SIZE : Nat := 4

/-- Modelled from the spec: the number of CPU shards. -/
def CPU_SHARDING_FACTOR : Nat := 2

def cpu_sharding_subspace (cpu : Nat) : region_t :=
  { beg := cpu * (HASH_REGION_HASH_SIZE / CPU_SHARDING_FACTOR),
    hash_end := (cpu + 1) * (HASH_REGION_HASH_SIZE / CPU_SHARDING_FACTOR),
    kbeg := 0, kend := 0 }

def get_cpu_shard_approx_number (reg : region_t) : Nat :=
  reg.beg / (HASH_REGION_HASH_SIZE / CPU_SHARDING_FACTOR)

/-- The `frags_by_server` accumulation of `calculate_all_contracts()`: start
from the homogeneous empty map over `region` and, for each ack for this
contract, fragment it and insert the per-server fragment into each
sub-region's map. -/
def frags_by_server_for (vfbc : version_find_branch_common_t) (region : region_t)
    (cid : contract_id_t) (acks : acks_all_t)
    (current_branches : region_map branch_id_t)
    (raft_branch_history : branch_history_t) : region_map acks_map_t :=
  acks.foldl (fun m entry =>
    if entry.1.2 = cid then
      let frags := break_ack_into_fragments vfbc region entry.2
        current_branches raft_branch_history
      (region_map_visit frags region).foldl (fun m2 rf =>
        region_map_update m2 rf.1 (fun am => am ++ [(entry.1.1, rf.2)])) m
    else m)
    [(region, ([] : acks_map_t))]

/-- Requested branch id of a `primary_need_branch` ack (the source
dereferences the optional branch; absence there is undefined behaviour,
modelled with `Option.getD 0`). -/
def requested_branch (am : acks_map_t) (server : server_id_t) : branch_id_t :=
  match List.lookup server am with
  | some frag => frag.branch.getD 0
  | none => 0

/-- The per-sub-region body of the driver's visit loop: compute the shard
log subprefix, run `calculate_contract`, record a branch-registration
request if the retained primary asked for one, and accumulate the
(region, contract) pair.  The accumulator is
(subshard index, contract pairs, registrations, log lines). -/
def driver_step (old_contract : contract_t) (shard_cfg : shard_config_t)
    (connections_map : connections_map_t) (log_pfx : String) (shard_index : Nat)
    (acc : Nat × List (region_t × contract_t) × List (region_t × branch_id_t) × List String)
    (ra : region_t × acks_map_t) :
    Nat × List (region_t × contract_t) × List (region_t × branch_id_t) × List String :=
  let subshard_index := acc.1
  let log_subpfx :=
    if log_pfx = "" then ""
    else log_pfx ++ ": shard " ++ toString shard_index ++ "." ++
      toString subshard_index ++ "." ++ toString (get_cpu_shard_approx_number ra.1)
  let subshard2 :=
    if log_pfx ≠ "" ∧ ra.1.hash_end = HASH_REGION_HASH_SIZE
    then subshard_index + 1 else subshard_index
  let res := calculate_contract old_contract shard_cfg ra.2 connections_map log_subpfx
  let reg_entries : List (region_t × branch_id_t) :=
    match old_contract.primary, res.1.primary with
    | some p, some q =>
      if decide (p.server = q.server) &&
          ack_state_is ra.2 p.server ack_state_t.primary_need_branch then
        [(ra.1, requested_branch ra.2 p.server)]
      else []
    | _, _ => []
  (subshard2, acc.2.1 ++ [(ra.1, res.1)], acc.2.2.1 ++ reg_entries, acc.2.2.2 ++ res.2)

/-- The sub-region handled by one (old contract, user shard) iteration of
the driver: the intersection of the contract region with the user shard's
key range over the full hash space (source lines 425-427). -/
def shard_sub_region (old_state : table_raft_state_t) (creg : region_t)
    (shard_index : Nat) : region_t :=
  region_intersection creg
    { beg := 0, hash_end := HASH_REGION_HASH_SIZE,
      kbeg := (old_state.config.shard_scheme.getD shard_index (0, 0)).1,
      kend := (old_state.config.shard_scheme.getD shard_index (0, 0)).2 }

/-- One (old contract, user shard) iteration of `calculate_all_contracts()`:
intersect the contract region with the user shard, collect the per-server
ack fragments, and walk the homogeneous sub-regions.  Returns the
(region, new contract) pairs, the branch registrations, and the log lines. -/
def process_region (vfbc : version_find_branch_common_t)
    (old_state : table_raft_state_t) (acks : acks_all_t)
    (connections_map : connections_map_t) (log_pfx : String)
    (cpair : contract_id_t × region_t × contract_t) (shard_index : Nat) :
    List (region_t × contract_t) × List (region_t × branch_id_t) × List String :=
  let sr := old_state.config.shard_scheme.getD shard_index (0, 0)
  let region := region_intersection cpair.2.1
    { beg := 0, hash_end := HASH_REGION_HASH_SIZE, kbeg := sr.1, kend := sr.2 }
  if region_is_empty region = true then ([], [], [])
  else
    let fbs := frags_by_server_for vfbc region cpair.1 acks
      old_state.current_branches old_state.branch_history
    let shard_cfg := old_state.config.shards.getD shard_index
      { all_replicas := ∅, voting_replicas := ∅, primary_replica := nil_server }
    let r := (region_map_visit fbs region).foldl
      (driver_step cpair.2.2 shard_cfg connections_map log_pfx shard_index)
      (0, [], [], [])
    (r.2.1, r.2.2.1, r.2.2.2)

def lookup_region (m : List (region_t × contract_t)) (r : region_t) :
    Option contract_t :=
  (m.find? (fun e => decide (e.1 = r))).map (fun e => e.2)

def erase_region (m : List (region_t × contract_t)) (r : region_t) :
    List (region_t × contract_t) :=
  m.eraseP (fun e => decide (e.1 = r))

/-- The diff loop of `calculate_all_contracts()`: each old contract looks
its exact region up in the new contract map; a hit with a value-equal
contract keeps the old id and erases the entry, anything else marks the old
id for removal.  Returns the remaining new map and the removed ids. -/
def diff_loop : List (contract_id_t × region_t × contract_t) →
    List (region_t × contract_t) →
    List (region_t × contract_t) × List contract_id_t
  | [], nm => (nm, [])
  | e :: rest, nm =>
    match lookup_region nm e.2.1 with
    | some c =>
      if c = e.2.2 then diff_loop rest (erase_region nm e.2.1)
      else
        let r := diff_loop rest nm
        (r.1, e.1 :: r.2)
    | none =>
      let r := diff_loop rest nm
      (r.1, e.1 :: r.2)

/-- The diff step of `calculate_all_contracts()` (source lines 529-546):
removed old ids, plus the remaining new entries under freshly generated ids
(`generate_uuid()` is modelled by the injective supply `gen`). -/
def diff_contracts (old_contracts : List (contract_id_t × region_t × contract_t))
    (new_contract_map : List (region_t × contract_t)) (gen : Nat → contract_id_t) :
    List contract_id_t × List (contract_id_t × region_t × contract_t) :=
  let r := diff_loop old_contracts new_contract_map
  (r.2, r.1.enum.map (fun e => (gen e.1, e.2.1, e.2.2)))

/-- The nested loop of `calculate_all_contracts()`: one `process_region`
result per (old contract, user shard) pair. -/
def driver_results (vfbc : version_find_branch_common_t)
    (old_state : table_raft_state_t) (acks : acks_all_t)
    (connections_map : connections_map_t) (log_pfx : String) :
    List (List (region_t × contract_t) × List (region_t × branch_id_t) × List String) :=
  old_state.contracts.flatMap (fun cpair =>
    (List.range old_state.config.shards.length).map
      (process_region vfbc old_state acks connections_map log_pfx cpair))

/-- `calculate_all_contracts()` from the source: break the key space into
homogeneous chunks, run `calculate_contract` on each, coalesce, re-slice by
(CPU shard x user shard) and diff against the old contracts.  Output:
((removed contract ids, added contracts, branch registrations), log lines). -/
def calculate_all_contracts (old_state : table_raft_state_t) (acks : acks_all_t)
    (connections_map : connections_map_t) (vfbc : version_find_branch_common_t)
    (gen : Nat → contract_id_t) (log_pfx : String) :
    (List contract_id_t × List (contract_id_t × region_t × contract_t) ×
      List (region_t × branch_id_t)) × List String :=
  let results := driver_results vfbc old_state acks connections_map log_pfx
  let new_pairs := results.flatMap (fun r => r.1)
  let register_out := results.flatMap (fun r => r.2.1)
  let logs := results.flatMap (fun r => r.2.2)
  let new_contract_region_map :=
    region_map_from_unordered_fragments (new_pairs.map (fun e => e.1))
      (new_pairs.map (fun e => e.2))
  let new_contract_map : List (region_t × contract_t) :=
    region_map_sort ((List.range CPU_SHARDING_FACTOR).flatMap (fun cpu =>
      (List.range old_state.config.shards.length).flatMap (fun shard =>
        let sr := old_state.config.shard_scheme.getD shard (0, 0)
        let base := cpu_sharding_subspace cpu
        region_map_visit new_contract_region_map
          { beg := base.beg, hash_end := base.hash_end, kbeg := sr.1, kend := sr.2 })))
  let d := diff_contracts old_state.contracts new_contract_map gen
  ((d.1, d.2, register_out), logs)

/-!
Specification-side definitions, written from the spec's words, to be
compared against the source-derived definitions above, and the concrete
inputs used by witnesses and counterexamples.
-/

instance decidable_exists_some {α : Type} (o : Option α) (p : α → Prop)
    [DecidablePred p] : Decidable (∃ x, o = some x ∧ p x) :=
  match o with
  | none => isFalse (by simp)
  | some v =>
    if h : p v then isTrue ⟨v, rfl, h⟩
    else isFalse (by simp [h])

/-- Spec wording for the visibility oracle: judge `j` counts as seeing the
target when `(j, target)` is in the connections map or the coordinator
itself cannot see `j`. -/
def sees_target (connections_map : connections_map_t) (target j : server_id_t) : Prop :=
  connections_map j target = true ∨ ¬ connections_map j j = true

instance sees_target_decidable (connections_map : connections_map_t)
    (target j : server_id_t) : Decidable (sees_target connections_map target j) := by
  unfold sees_target
  infer_instance

def seeing_count (target : server_id_t) (judges : Finset server_id_t)
    (connections_map : connections_map_t) : Nat :=
  (judges.filter (fun j => sees_target connections_map target j)).card

def cannot_see_count (target : server_id_t) (judges : Finset server_id_t)
    (connections_map : connections_map_t) : Nat :=
  (judges.filter (fun j => ¬ sees_target connections_map target j)).card

/-- Spec wording for the voter-change threshold, as amended: servers of the
new voting set that have sent an ack and either are `secondary_streaming`
or are the existing primary. -/
def streaming_count_spec (o : contract_t) (cvr : Finset server_id_t)
    (a : acks_map_t) : Nat :=
  (cvr.filter (fun s => ∃ frag, List.lookup s a = some frag ∧
    (frag.state = ack_state_t.secondary_streaming ∨
      ∃ pr, o.primary = some pr ∧ pr.server = s))).card

/-- The count as written in the claim: servers of the new voting set that
are `secondary_streaming` or are the existing primary, the latter whether
or not an ack is present. -/
def claimed_streaming_count (o : contract_t) (cvr : Finset server_id_t)
    (a : acks_map_t) : Nat :=
  (cvr.filter (fun s =>
    (∃ frag, List.lookup s a = some frag ∧
      frag.state = ack_state_t.secondary_streaming) ∨
    (∃ pr, o.primary = some pr ∧ pr.server = s))).card

/-- Spec wording for election eligibility: a candidate is data-eligible when
the number of candidates it is at least as up-to-date as (those of
timestamp at most its own, itself included) exceeds half the voter count,
and elect-eligible when additionally visible. -/
def eligible_candidates_spec (half : Nat) (vis : Finset server_id_t)
    (l : List (state_timestamp_t × server_id_t)) : List server_id_t :=
  (l.filter (fun c => decide (c.2 ∈ vis) &&
    decide (l.countP (fun d => decide (d.1 ≤ c.1)) > half))).map (fun c => c.2)

def conn_all : connections_map_t := fun _ _ => true

def conn_none : connections_map_t := fun _ _ => false

def ex_vfbc : version_find_branch_common_t := fun _ _ _ r => [(r, ⟨0, 0⟩)]

def frag_need_primary_10 : contract_ack_frag_t :=
  { state := ack_state_t.secondary_need_primary, version := some 10, branch := none }

def frag_streaming : contract_ack_frag_t :=
  { state := ack_state_t.secondary_streaming, version := none, branch := none }

def frag_ready : contract_ack_frag_t :=
  { state := ack_state_t.primary_ready, version := none, branch := none }

/-- Bootstrap scenario: three voters, all acking `secondary_need_primary`
with equal versions, designated primary 2. -/
def ex4_old : contract_t :=
  { replicas := {1, 2, 3}, voters := {1, 2, 3}, temp_voters := none,
    primary := none, branch := 0 }

def ex4_cfg : shard_config_t :=
  { all_replicas := {1, 2, 3}, voting_replicas := {1, 2, 3}, primary_replica := 2 }

def ex4_acks : acks_map_t :=
  [(1, frag_need_primary_10), (2, frag_need_primary_10), (3, frag_need_primary_10)]

/-- Hand-over scenario: primary 1, designated primary 2 acking
`secondary_streaming`. -/
def exE_old : contract_t :=
  { replicas := {1, 2}, voters := {1, 2}, temp_voters := none,
    primary := some { server := 1, hand_over := none, warm_shutdown := false },
    branch := 0 }

def exE_cfg : shard_config_t :=
  { all_replicas := {1, 2}, voting_replicas := {1, 2}, primary_replica := 2 }

def exE_acks : acks_map_t := [(2, frag_streaming)]

/-- Voter-change commit scenario: `temp_voters` present, primary 1 acking
`primary_ready`. -/
def ex5_old : contract_t :=
  { replicas := {1, 2, 3, 4}, voters := {1, 2, 3}, temp_voters := some {2, 3, 4},
    primary := some { server := 1, hand_over := none, warm_shutdown := false },
    branch := 0 }

def ex5_cfg : shard_config_t :=
  { all_replicas := {2, 3, 4}, voting_replicas := {2, 3, 4}, primary_replica := 2 }

def ex5_acks : acks_map_t := [(1, frag_ready)]

/-- Voter-change begin scenario: both members of the new voting set are
streaming. -/
def ex3w_old : contract_t :=
  { replicas := {1, 2}, voters := {1}, temp_voters := none, primary := none,
    branch := 0 }

def ex3w_cfg : shard_config_t :=
  { all_replicas := {1, 2}, voting_replicas := {1, 2}, primary_replica := 1 }

def ex3w_acks : acks_map_t := [(1, frag_streaming), (2, frag_streaming)]

/-- Counterexample input for the voter-change begin threshold: the existing
primary (server 1) is the whole new voting set but has sent no ack. -/
def ex3c_old : contract_t :=
  { replicas := {1, 2}, voters := {1, 2}, temp_voters := none,
    primary := some { server := 1, hand_over := none, warm_shutdown := false },
    branch := 0 }

def ex3c_cfg : shard_config_t :=
  { all_replicas := {1}, voting_replicas := {1}, primary_replica := 1 }

/-- Concrete diff-step input: the first old contract is value-equal in the
new map, the second is not. -/
def ex7_cA : contract_t :=
  { replicas := {1}, voters := {1}, temp_voters := none, primary := none, branch := 0 }

def ex7_cB : contract_t :=
  { replicas := {1, 2}, voters := {1}, temp_voters := none, primary := none, branch := 0 }

def ex7_cB2 : contract_t :=
  { replicas := {1, 2, 3}, voters := {1}, temp_voters := none, primary := none, branch := 0 }

def ex7_old : List (contract_id_t × region_t × contract_t) :=
  [(1, ⟨0, 4, 0, 5⟩, ex7_cA), (2, ⟨0, 4, 5, 10⟩, ex7_cB)]

def ex7_nm : List (region_t × contract_t) :=
  [(⟨0, 4, 0, 5⟩, ex7_cA), (⟨0, 4, 5, 10⟩, ex7_cB2)]

def ex7_gen : Nat → contract_id_t := fun k => 50 + k

/-- A one-shard table configuration over servers `{1}`. -/
def ex_cfg1 : table_config_t :=
  { shards := [{ all_replicas := {1}, voting_replicas := {1}, primary_replica := 1 }],
    shard_scheme := [(0, 10)] }

/-- An old state whose contracts do not yet mention replica 1: any
invocation emits a nonempty diff, however often it is repeated. -/
def ex8_contract : contract_t :=
  { replicas := ∅, voters := ∅, temp_voters := none, primary := none, branch := 0 }

def ex8_state : table_raft_state_t :=
  { contracts := [(100, ⟨0, 2, 0, 10⟩, ex8_contract), (101, ⟨2, 4, 0, 10⟩, ex8_contract)],
    config := ex_cfg1, current_branches := [], branch_history := [] }

def ex8_genA : Nat → contract_id_t := fun k => 1000 + k

def ex8_genB : Nat → contract_id_t := fun k => 2000 + k

/-- A state whose single contract keeps its primary (server 1), which acks
`primary_need_branch` requesting branch 7. -/
def ex10_contract : contract_t :=
  { replicas := {1}, voters := {1}, temp_voters := none,
    primary := some { server := 1, hand_over := none, warm_shutdown := false },
    branch := 0 }

def ex10_state : table_raft_state_t :=
  { contracts := [(5, ⟨0, 4, 0, 10⟩, ex10_contract)],
    config := ex_cfg1, current_branches := [], branch_history := [] }

def ex10_ack : contract_ack_t :=
  { state := ack_state_t.primary_need_branch, version := none, branch := some 7,
    branch_history := [] }

def ex10_acks : acks_all_t := [((1, 5), ex10_ack)]

def ex10_gen : Nat → contract_id_t := fun k => 3000 + k

/-! Glue lemmas about `calculate_contract` and its pieces. -/

theorem calculate_contract_voters (o : contract_t) (cfg : shard_config_t)
    (a : acks_map_t) (m : connections_map_t) (s : String) :
    ((calculate_contract o cfg a m s).1).voters = (voters_after_change o cfg a).1 := rfl

theorem calculate_contract_temp_voters (o : contract_t) (cfg : shard_config_t)
    (a : acks_map_t) (m : connections_map_t) (s : String) :
    ((calculate_contract o cfg a m s).1).temp_voters = (voters_after_change o cfg a).2 := rfl

theorem calculate_contract_branch_eq (o : contract_t) (cfg : shard_config_t)
    (a : acks_map_t) (m : connections_map_t) (s : String) :
    ((calculate_contract o cfg a m s).1).branch = o.branch := rfl

theorem calculate_contract_replicas (o : contract_t) (cfg : shard_config_t)
    (a : acks_map_t) (m : connections_map_t) (s : String) :
    ((calculate_contract o cfg a m s).1).replicas =
      (o.replicas ∪ cfg.all_replicas).filter (fun x =>
        ¬ (x ∈ o.replicas ∧
          prune_removed_b cfg (voters_after_change o cfg a).1
            (voters_after_change o cfg a).2 x = true)) := rfl

theorem calculate_contract_primary_none (o : contract_t) (cfg : shard_config_t)
    (a : acks_map_t) (m : connections_map_t) (s : String) (h : o.primary = none) :
    ((calculate_contract o cfg a m s).1).primary =
      elect_primary (voters_after_change o cfg a).1
        (visible_voters_of (o.replicas ∪ cfg.all_replicas)
          (voters_after_change o cfg a).1 (voters_after_change o cfg a).2 m)
        a cfg := by
  simp only [calculate_contract, h]

theorem calculate_contract_primary_some (o : contract_t) (cfg : shard_config_t)
    (a : acks_map_t) (m : connections_map_t) (s : String) (p : primary_t)
    (h : o.primary = some p) :
    ((calculate_contract o cfg a m s).1).primary =
      handle_existing_primary p cfg a
        (visible_voters_of (o.replicas ∪ cfg.all_replicas)
          (voters_after_change o cfg a).1 (voters_after_change o cfg a).2 m)
        (decide (p.server ∈ o.replicas) &&
          prune_removed_b cfg (voters_after_change o cfg a).1
            (voters_after_change o cfg a).2 p.server) := by
  simp only [calculate_contract, h]

theorem handle_existing_primary_some (old_p : primary_t) (cfg : shard_config_t)
    (a : acks_map_t) (vis : Finset server_id_t) (k : Bool) (q : primary_t)
    (h : handle_existing_primary old_p cfg a vis k = some q) :
    q.server = old_p.server ∧ k = false := by
  unfold handle_existing_primary at h
  by_cases h1 : (k || decide (old_p.server ∉ vis)) = true
  · rw [if_pos h1] at h
    exact absurd h (by simp)
  · rw [if_neg h1] at h
    have hk : k = false := by
      revert h1
      cases k <;> simp
    refine ⟨?_, hk⟩
    split_ifs at h <;> (injection h with h2; rw [← h2])

theorem primary_ready_acked_iff (o : contract_t) (a : acks_map_t) :
    primary_ready_acked o a = true ↔
      ∃ pr frag, o.primary = some pr ∧ List.lookup pr.server a = some frag ∧
        frag.state = ack_state_t.primary_ready := by
  unfold primary_ready_acked ack_state_is
  cases ho : o.primary with
  | none => simp
  | some p =>
    cases hl : List.lookup p.server a with
    | none => simp [hl]
    | some frag => simp [hl]

theorem num_streaming_eq_spec (o : contract_t) (cvr : Finset server_id_t)
    (a : acks_map_t) : num_streaming o cvr a = streaming_count_spec o cvr a := by
  unfold num_streaming streaming_count_spec
  congr 1
  apply Finset.filter_congr
  intro s _
  unfold streaming_or_primary
  cases hl : List.lookup s a with
  | none => simp
  | some frag =>
    cases ho : o.primary with
    | none => simp [ho]
    | some p => simp [ho]

/-! Claim C2: the visibility oracle. -/

/-- C2, counterexample: on the empty judge set the source returns `true`,
while the claimed characterisation ("strictly more than half of the judges
cannot see the target") is false there. -/
theorem C2_counterexample :
    invisible_to_majority_of_set 0 (∅ : Finset server_id_t) conn_none = true ∧
    ¬ (2 * cannot_see_count 0 (∅ : Finset server_id_t) conn_none >
        (∅ : Finset server_id_t).card) := by decide

/-- C2, as amended: `invisible_to_majority_of_set target judges conn`
returns true iff the judges that count as seeing the target (per
`sees_target`) do not form a strict majority of `judges`, i.e. iff their
number is at most half (equivalently, at least half the judges, rounded
up, cannot see the target).  For odd judge sets this coincides with the
claimed "strictly more than half cannot see"; for even and empty judge
sets it does not. -/
theorem C2_invisible_to_majority_iff (target : server_id_t)
    (judges : Finset server_id_t) (m : connections_map_t) :
    invisible_to_majority_of_set target judges m = true ↔
      2 * seeing_count target judges m ≤ judges.card := by
  unfold invisible_to_majority_of_set seeing_count
  have he : judges.filter (fun j => sees_target m target j) =
      judges.filter (fun s => m s target = true ∨ ¬ m s s = true) := by
    apply Finset.filter_congr
    intro x _
    unfold sees_target
    exact Iff.rfl
  rw [he]
  simp only [Bool.not_eq_true', decide_eq_false_iff_not, not_lt]
  omega

/-! Claim C3: beginning a voter change. -/

/-- C3, counterexample: the old contract's primary (server 1) is the whole
new voting set but has sent no ack.  All conditions of the claim as stated
hold (no `temp_voters`, voters differ, the claimed count — which includes
the primary regardless of acks — exceeds half), yet the source does not
set `temp_voters`, because the primary only counts once it has sent an
ack. -/
theorem C3_counterexample :
    (ex3c_old.temp_voters = none ∧
      ex3c_old.voters ≠ ex3c_cfg.voting_replicas ∧
      claimed_streaming_count ex3c_old ex3c_cfg.voting_replicas [] >
        ex3c_cfg.voting_replicas.card / 2) ∧
    ((calculate_contract ex3c_old ex3c_cfg [] conn_all "").1).temp_voters ≠
      some ex3c_cfg.voting_replicas := by decide

/-- C3, as amended: when the old contract has no `temp_voters`, the new
contract's `temp_voters` is `config.voting_replicas` exactly when the old
voters differ from `config.voting_replicas` and the number of servers of
the new voting set that have sent an ack and are `secondary_streaming` or
are the existing primary exceeds half the new voting set; otherwise it
stays absent.  (The existing primary counts only if it has sent an ack, of
any state.) -/
theorem C3_begin_voter_change (o : contract_t) (cfg : shard_config_t)
    (a : acks_map_t) (m : connections_map_t) (s : String)
    (h : o.temp_voters = none) :
    ((calculate_contract o cfg a m s).1).temp_voters =
      (if o.voters ≠ cfg.voting_replicas ∧
          streaming_count_spec o cfg.voting_replicas a >
            cfg.voting_replicas.card / 2
       then some cfg.voting_replicas
       else none) := by
  rw [calculate_contract_temp_voters]
  unfold voters_after_change
  rw [h]
  simp only [Option.isSome_none, Bool.false_eq_true, false_and, if_false]
  unfold begin_change_cond
  rw [h, num_streaming_eq_spec]
  by_cases h1 : o.voters ≠ cfg.voting_replicas
  · by_cases h2 : streaming_count_spec o cfg.voting_replicas a >
        cfg.voting_replicas.card / 2
    · simp [h1, h2]
    · simp [h1, h2]
  · simp [h1]

/-- C3, witness: both members of the new voting set `{1, 2}` are streaming,
so `temp_voters` is set. -/
theorem C3_witness :
    ((calculate_contract ex3w_old ex3w_cfg ex3w_acks conn_all "").1).temp_voters =
      some {1, 2} := by
  have h := C3_begin_voter_change ex3w_old ex3w_cfg ex3w_acks conn_all "" rfl
  rw [h]
  decide

/-! Claim C5: committing a voter change. -/

/-- C5: with `temp_voters` present, `calculate_contract` sets
`voters := temp_voters` and clears `temp_voters` exactly when the old
contract has a primary whose ack is `primary_ready`; under any other ack
state or a missing ack both fields are unchanged.  With `temp_voters`
absent, `voters` is unchanged. -/
theorem C5_commit_voter_change (o : contract_t) (cfg : shard_config_t)
    (a : acks_map_t) (m : connections_map_t) (s : String) :
    (∀ tv, o.temp_voters = some tv →
      ((∃ pr frag, o.primary = some pr ∧ List.lookup pr.server a = some frag ∧
          frag.state = ack_state_t.primary_ready) →
        ((calculate_contract o cfg a m s).1).voters = tv ∧
          ((calculate_contract o cfg a m s).1).temp_voters = none) ∧
      (¬ (∃ pr frag, o.primary = some pr ∧ List.lookup pr.server a = some frag ∧
          frag.state = ack_state_t.primary_ready) →
        ((calculate_contract o cfg a m s).1).voters = o.voters ∧
          ((calculate_contract o cfg a m s).1).temp_voters = some tv)) ∧
    (o.temp_voters = none →
      ((calculate_contract o cfg a m s).1).voters = o.voters) := by
  constructor
  · intro tv htv
    have hb : begin_change_cond o cfg a = false := by
      unfold begin_change_cond
      simp [htv]
    constructor
    · intro hready
      rw [calculate_contract_voters, calculate_contract_temp_voters]
      unfold voters_after_change
      rw [hb]
      simp [htv, (primary_ready_acked_iff o a).mpr hready]
    · intro hnready
      have hr : ¬ primary_ready_acked o a = true := fun hc =>
        hnready ((primary_ready_acked_iff o a).mp hc)
      rw [calculate_contract_voters, calculate_contract_temp_voters]
      unfold voters_after_change
      rw [hb]
      simp [htv, hr]
  · intro hnone
    rw [calculate_contract_voters]
    unfold voters_after_change
    simp [hnone]

/-- C5, witness: scenario D — `voters = {1,2,3}`, `temp_voters = {2,3,4}`,
primary 1 acking `primary_ready`: the change commits. -/
theorem C5_witness :
    ((calculate_contract ex5_old ex5_cfg ex5_acks conn_all "").1).voters = {2, 3, 4} ∧
    ((calculate_contract ex5_old ex5_cfg ex5_acks conn_all "").1).temp_voters = none := by
  have h := ((C5_commit_voter_change ex5_old ex5_cfg ex5_acks conn_all "").1
    {2, 3, 4} rfl).1
  exact h ⟨{ server := 1, hand_over := none, warm_shutdown := false },
    frag_ready, rfl, by decide, rfl⟩

/-! Claim C1: a single invocation never replaces the primary server. -/

/-- C1: if the old contract has a primary and the returned contract has a
primary, they name the same server — election only runs with no old
primary, and existing-primary handling keeps the server (possibly editing
`hand_over`) or clears `primary`. -/
theorem C1_no_primary_replacement (o : contract_t) (cfg : shard_config_t)
    (a : acks_map_t) (m : connections_map_t) (s : String) (pr q : primary_t)
    (h1 : o.primary = some pr)
    (h2 : ((calculate_contract o cfg a m s).1).primary = some q) :
    q.server = pr.server := by
  rw [calculate_contract_primary_some o cfg a m s pr h1] at h2
  exact (handle_existing_primary_some pr cfg a _ _ q h2).1

/-- C1, witness: the hand-over scenario keeps server 1 as primary while
setting `hand_over`. -/
theorem C1_witness :
    ({ server := 1, hand_over := some 2, warm_shutdown := false } : primary_t).server =
      ({ server := 1, hand_over := none, warm_shutdown := false } : primary_t).server :=
  C1_no_primary_replacement exE_old exE_cfg exE_acks conn_all ""
    { server := 1, hand_over := none, warm_shutdown := false }
    { server := 1, hand_over := some 2, warm_shutdown := false }
    rfl (by decide)

/-! Facts about `finset_asc`, the candidate list, and election membership. -/

theorem foldr_orderedInsert_eq (l : List Nat) :
    List.foldr (fun a t => List.orderedInsert (· ≤ ·) a t) [] l =
      List.insertionSort (· ≤ ·) l := by
  induction l with
  | nil => rfl
  | cons a l ih => simp [List.insertionSort, ih]

theorem multiset_foldr_oi (ms : Multiset server_id_t) :
    ((Multiset.foldr (fun a l => List.orderedInsert (· ≤ ·) a l) [] ms :
      List server_id_t) : Multiset server_id_t) = ms := by
  induction ms using Quotient.inductionOn with
  | _ l =>
    rw [show (Quotient.mk _ l : Multiset server_id_t) = (l : Multiset server_id_t) from rfl]
    rw [Multiset.coe_foldr, foldr_orderedInsert_eq]
    exact Quot.sound (List.perm_insertionSort _ l)

theorem finset_asc_mem (s : Finset server_id_t) (x : server_id_t) :
    x ∈ finset_asc s ↔ x ∈ s := by
  unfold finset_asc
  rw [← Multiset.mem_coe, multiset_foldr_oi]
  exact Finset.mem_def.symm

theorem finset_asc_nodup (s : Finset server_id_t) : (finset_asc s).Nodup := by
  have h : ((finset_asc s : List server_id_t) : Multiset server_id_t) = s.val := by
    unfold finset_asc
    exact multiset_foldr_oi s.val
  exact Multiset.coe_nodup.mp (h ▸ s.nodup)

theorem sorted_candidates_of_mem (voters : Finset server_id_t) (a : acks_map_t)
    (c : state_timestamp_t × server_id_t) (h : c ∈ sorted_candidates_of voters a) :
    c.2 ∈ voters := by
  unfold sorted_candidates_of at h
  have h2 := (List.perm_insertionSort lex_le _).mem_iff.mp h
  rw [List.mem_filterMap] at h2
  obtain ⟨srv, hs, hf⟩ := h2
  have hsv : srv ∈ voters := (finset_asc_mem voters srv).mp hs
  revert hf
  cases List.lookup srv a with
  | none =>
    intro hf
    exact Option.noConfusion hf
  | some frag =>
    intro hf
    have hf2 : (if frag.state = ack_state_t.secondary_need_primary
        then some (frag.version.getD 0, srv) else none) = some c := hf
    by_cases hst : frag.state = ack_state_t.secondary_need_primary
    · rw [if_pos hst] at hf2
      injection hf2 with hf3
      rw [← hf3]
      exact hsv
    · rw [if_neg hst] at hf2
      exact Option.noConfusion hf2

theorem eligible_loop_mem (vis : Finset server_id_t) (half : Nat) :
    ∀ (l : List (state_timestamp_t × server_id_t)) (i : Nat) (x : server_id_t),
      x ∈ eligible_loop vis half i l → ∃ c ∈ l, c.2 = x := by
  intro l
  induction l with
  | nil =>
    intro i x hx
    exact absurd hx (by simp [eligible_loop])
  | cons c rest ih =>
    intro i x hx
    unfold eligible_loop at hx
    split_ifs at hx with hcond
    · rcases List.mem_cons.mp hx with h | h
      · exact ⟨c, List.mem_cons_self c rest, h.symm⟩
      · obtain ⟨d, hd, hdx⟩ := ih (i + 1) x h
        exact ⟨d, List.mem_cons_of_mem c hd, hdx⟩
    · obtain ⟨d, hd, hdx⟩ := ih (i + 1) x hx
      exact ⟨d, List.mem_cons_of_mem c hd, hdx⟩

theorem elect_primary_some_mem (voters vis : Finset server_id_t) (a : acks_map_t)
    (cfg : shard_config_t) (q : primary_t)
    (h : elect_primary voters vis a cfg = some q) : q.server ∈ voters := by
  simp only [elect_primary] at h
  by_cases h1 : cfg.primary_replica ∈
      eligible_loop vis (voters.card / 2) 0 (sorted_candidates_of voters a)
  · rw [if_pos h1] at h
    injection h with h4
    rw [← h4]
    show cfg.primary_replica ∈ voters
    obtain ⟨c, hc, hcx⟩ := eligible_loop_mem vis (voters.card / 2) _ 0 _ h1
    have hcv := sorted_candidates_of_mem voters a c hc
    rw [hcx] at hcv
    exact hcv
  · rw [if_neg h1] at h
    by_cases h2 : eligible_loop vis (voters.card / 2) 0 (sorted_candidates_of voters a) ≠ []
    · rw [if_pos h2] at h
      by_cases h3 : cfg.primary_replica ≠ nil_server ∧ cfg.primary_replica ∈ vis ∧
          List.lookup cfg.primary_replica a = none
      · rw [if_pos h3] at h
        exact Option.noConfusion h
      · rw [if_neg h3] at h
        rw [Option.map_eq_some'] at h
        obtain ⟨x, hx, hq⟩ := h
        have hxl : x ∈ eligible_loop vis (voters.card / 2) 0
            (sorted_candidates_of voters a) :=
          List.mem_of_mem_getLast? hx
        obtain ⟨c, hc, hcx⟩ := eligible_loop_mem vis (voters.card / 2) _ 0 _ hxl
        have hcv := sorted_candidates_of_mem voters a c hc
        rw [hcx] at hcv
        rw [← hq]
        exact hcv
    · rw [if_neg h2] at h
      exact Option.noConfusion h

/-! Facts about the voter-change step and pruning, used for the invariants. -/

theorem begin_change_cond_false_of_some (o : contract_t) (cfg : shard_config_t)
    (a : acks_map_t) (tv : Finset server_id_t) (h : o.temp_voters = some tv) :
    begin_change_cond o cfg a = false := by
  unfold begin_change_cond
  simp [h]

theorem voters_after_change_voters_cases (o : contract_t) (cfg : shard_config_t)
    (a : acks_map_t) :
    (voters_after_change o cfg a).1 = o.voters ∨
      ∃ tv, o.temp_voters = some tv ∧ (voters_after_change o cfg a).1 = tv := by
  unfold voters_after_change
  cases ht : o.temp_voters with
  | none => simp [ht]
  | some tv =>
    have hb := begin_change_cond_false_of_some o cfg a tv ht
    by_cases hr : primary_ready_acked o a = true
    · right
      exact ⟨tv, rfl, by simp [ht, hb, hr]⟩
    · left
      simp [ht, hb, hr]

theorem voters_after_change_temp_cases (o : contract_t) (cfg : shard_config_t)
    (a : acks_map_t) :
    (voters_after_change o cfg a).2 = none ∨
      (voters_after_change o cfg a).2 = o.temp_voters ∨
      (voters_after_change o cfg a).2 = some cfg.voting_replicas := by
  unfold voters_after_change
  cases ht : o.temp_voters with
  | none =>
    by_cases hb : begin_change_cond o cfg a = true
    · right
      right
      simp [ht, hb]
    · left
      simp [ht, hb]
  | some tv =>
    have hb := begin_change_cond_false_of_some o cfg a tv ht
    by_cases hr : primary_ready_acked o a = true
    · left
      simp [ht, hb, hr]
    · right
      left
      simp [ht, hb, hr]

theorem prune_removed_b_false_of_mem_voters (cfg : shard_config_t)
    (voters : Finset server_id_t) (tv : Option (Finset server_id_t))
    (x : server_id_t) (hx : x ∈ voters) :
    prune_removed_b cfg voters tv x = false := by
  unfold prune_removed_b
  simp [hx]

theorem prune_removed_b_false_of_mem_tv (cfg : shard_config_t)
    (voters : Finset server_id_t) (tvs : Finset server_id_t)
    (x : server_id_t) (hx : x ∈ tvs) :
    prune_removed_b cfg voters (some tvs) x = false := by
  unfold prune_removed_b
  simp [hx]

/-! Claim C6: preservation of the contract membership invariants. -/

/-- C6: when the old contract satisfies `voters ∪ temp_voters ⊆ replicas`
and `primary ∈ replicas`, and `config.voting_replicas ⊆ config.all_replicas`,
the new contract satisfies the same two invariants. -/
theorem C6_invariants (o : contract_t) (cfg : shard_config_t) (a : acks_map_t)
    (m : connections_map_t) (s : String)
    (hv : o.voters ⊆ o.replicas)
    (htv : ∀ tv, o.temp_voters = some tv → tv ⊆ o.replicas)
    (hp : ∀ pr, o.primary = some pr → pr.server ∈ o.replicas)
    (hc : cfg.voting_replicas ⊆ cfg.all_replicas) :
    ((calculate_contract o cfg a m s).1).voters ⊆
        ((calculate_contract o cfg a m s).1).replicas ∧
    (∀ tv, ((calculate_contract o cfg a m s).1).temp_voters = some tv →
      tv ⊆ ((calculate_contract o cfg a m s).1).replicas) ∧
    (∀ pr, ((calculate_contract o cfg a m s).1).primary = some pr →
      pr.server ∈ ((calculate_contract o cfg a m s).1).replicas) := by
  have hvsub : (voters_after_change o cfg a).1 ⊆ o.replicas := by
    rcases voters_after_change_voters_cases o cfg a with h | ⟨tv, htv2, h⟩
    · rw [h]
      exact hv
    · rw [h]
      exact htv tv htv2
  have hvoters : ∀ x, x ∈ (voters_after_change o cfg a).1 →
      x ∈ ((calculate_contract o cfg a m s).1).replicas := by
    intro x hx
    rw [calculate_contract_replicas]
    rw [Finset.mem_filter]
    refine ⟨Finset.mem_union_left _ (hvsub hx), ?_⟩
    rw [prune_removed_b_false_of_mem_voters cfg _ _ x hx]
    simp
  refine ⟨?_, ?_, ?_⟩
  · rw [calculate_contract_voters]
    intro x hx
    exact hvoters x hx
  · intro tv htveq
    rw [calculate_contract_temp_voters] at htveq
    intro x hx
    rw [calculate_contract_replicas]
    rw [Finset.mem_filter]
    have hprune : prune_removed_b cfg (voters_after_change o cfg a).1
        (voters_after_change o cfg a).2 x = false := by
      rw [htveq]
      exact prune_removed_b_false_of_mem_tv cfg _ tv x hx
    have hmem : x ∈ o.replicas ∪ cfg.all_replicas := by
      rcases voters_after_change_temp_cases o cfg a with h | h | h
      · rw [h] at htveq
        exact Option.noConfusion htveq
      · rw [h] at htveq
        exact Finset.mem_union_left _ (htv tv htveq hx)
      · rw [h] at htveq
        injection htveq with htveq2
        rw [← htveq2] at hx
        exact Finset.mem_union_right _ (hc hx)
    refine ⟨hmem, ?_⟩
    rw [hprune]
    simp
  · intro pr hpr
    cases ho : o.primary with
    | none =>
      rw [calculate_contract_primary_none o cfg a m s ho] at hpr
      exact hvoters pr.server (elect_primary_some_mem _ _ a cfg pr hpr)
    | some p =>
      rw [calculate_contract_primary_some o cfg a m s p ho] at hpr
      obtain ⟨hsrv, hkill⟩ := handle_existing_primary_some p cfg a _ _ pr hpr
      have hpo : p.server ∈ o.replicas := hp p ho
      have hprf : prune_removed_b cfg (voters_after_change o cfg a).1
          (voters_after_change o cfg a).2 p.server = false := by
        have hdec : decide (p.server ∈ o.replicas) = true := by
          simp [hpo]
        rw [hdec] at hkill
        simpa using hkill
      rw [calculate_contract_replicas, hsrv, Finset.mem_filter]
      refine ⟨Finset.mem_union_left _ hpo, ?_⟩
      rw [hprf]
      simp

/-- C6, witness: the bootstrap scenario inputs satisfy the hypotheses and
the resulting contract satisfies the invariants. -/
theorem C6_witness :
    ((calculate_contract ex4_old ex4_cfg ex4_acks conn_all "").1).voters ⊆
        ((calculate_contract ex4_old ex4_cfg ex4_acks conn_all "").1).replicas ∧
    (∀ tv, ((calculate_contract ex4_old ex4_cfg ex4_acks conn_all "").1).temp_voters = some tv →
      tv ⊆ ((calculate_contract ex4_old ex4_cfg ex4_acks conn_all "").1).replicas) ∧
    (∀ pr, ((calculate_contract ex4_old ex4_cfg ex4_acks conn_all "").1).primary = some pr →
      pr.server ∈ ((calculate_contract ex4_old ex4_cfg ex4_acks conn_all "").1).replicas) :=
  C6_invariants ex4_old ex4_cfg ex4_acks conn_all ""
    (by decide) (by decide) (by decide) (by decide)

/-! Claim C4: the election step. -/

theorem lex_le_imp_ts_le (a b : Nat × Nat) (h : lex_le a b) : a.1 ≤ b.1 := by
  obtain ⟨a1, a2⟩ := a
  obtain ⟨b1, b2⟩ := b
  have h2 : a1 < b1 ∨ (a1 = b1 ∧ a2 ≤ b2) := h
  show a1 ≤ b1
  omega

theorem sorted_candidates_ts_pairwise (voters : Finset server_id_t) (a : acks_map_t) :
    List.Pairwise (fun c d : Nat × Nat => c.1 ≤ d.1) (sorted_candidates_of voters a) := by
  have h : List.Sorted lex_le (sorted_candidates_of voters a) :=
    List.sorted_insertionSort lex_le _
  exact h.imp (fun hab => lex_le_imp_ts_le _ _ hab)

theorem countP_le_eq_takeWhile (t : Nat) :
    ∀ (l : List (Nat × Nat)), (∀ d ∈ l, t ≤ d.1) →
      List.Pairwise (fun c d : Nat × Nat => c.1 ≤ d.1) l →
      l.countP (fun d => decide (d.1 ≤ t)) =
        (l.takeWhile (fun d => decide (d.1 = t))).length := by
  intro l
  induction l with
  | nil =>
    intro _ _
    simp
  | cons d rest ih =>
    intro hge hpw
    rw [List.pairwise_cons] at hpw
    obtain ⟨hd_rest, hprest⟩ := hpw
    by_cases hd : d.1 = t
    · have hrec := ih (fun e he => hge e (List.mem_cons_of_mem d he)) hprest
      rw [List.countP_cons, List.takeWhile_cons]
      simp only [hd]
      simp [hrec]
    · have hlt : t < d.1 := by
        have := hge d (List.mem_cons_self d rest)
        omega
      have hz : rest.countP (fun e => decide (e.1 ≤ t)) = 0 := by
        rw [List.countP_eq_zero]
        intro e he
        have h1 := hd_rest e he
        simp only [decide_eq_true_eq]
        omega
      rw [List.countP_cons, List.takeWhile_cons]
      have hnle : ¬ d.1 ≤ t := by omega
      simp [hd, hnle, hz]

theorem up_to_date_count_eq (pre : List (Nat × Nat)) (c : Nat × Nat)
    (rest : List (Nat × Nat))
    (hpw : List.Pairwise (fun x y : Nat × Nat => x.1 ≤ y.1) (pre ++ c :: rest)) :
    pre.length + 1 + (rest.takeWhile (fun d => decide (d.1 = c.1))).length =
      (pre ++ c :: rest).countP (fun d => decide (d.1 ≤ c.1)) := by
  obtain ⟨hp1, hp2, hp12⟩ := List.pairwise_append.mp hpw
  rw [List.pairwise_cons] at hp2
  obtain ⟨hc_rest, hprest⟩ := hp2
  have h1 : pre.countP (fun d => decide (d.1 ≤ c.1)) = pre.length := by
    rw [List.countP_eq_length]
    intro d hd
    have := hp12 d hd c (List.mem_cons_self c rest)
    simpa using this
  have h2 : rest.countP (fun d => decide (d.1 ≤ c.1)) =
      (rest.takeWhile (fun d => decide (d.1 = c.1))).length :=
    countP_le_eq_takeWhile c.1 rest (fun d hd => hc_rest d hd) hprest
  rw [List.countP_append, List.countP_cons, h1, h2]
  simp only [decide_eq_true_eq, le_refl, if_true]
  omega

theorem eligible_loop_eq_spec (vis : Finset server_id_t) (half : Nat) :
    ∀ (l pre : List (Nat × Nat)),
      List.Pairwise (fun x y : Nat × Nat => x.1 ≤ y.1) (pre ++ l) →
      eligible_loop vis half pre.length l =
        (l.filter (fun c => decide (c.2 ∈ vis) &&
          decide ((pre ++ l).countP (fun d => decide (d.1 ≤ c.1)) > half))).map
          (fun c => c.2) := by
  intro l
  induction l with
  | nil =>
    intro pre _
    simp [eligible_loop]
  | cons c rest ih =>
    intro pre hpw
    have hpw2 : List.Pairwise (fun x y : Nat × Nat => x.1 ≤ y.1) ((pre ++ [c]) ++ rest) := by
      rw [List.append_assoc, List.singleton_append]
      exact hpw
    have ihh := ih (pre ++ [c]) hpw2
    rw [List.length_append, List.length_singleton, List.append_assoc,
      List.singleton_append] at ihh
    have hcount := up_to_date_count_eq pre c rest hpw
    unfold eligible_loop
    rw [List.filter_cons]
    by_cases hv : c.2 ∈ vis
    · by_cases hcnt : pre.length + 1 +
          (rest.takeWhile (fun d => decide (d.1 = c.1))).length > half
      · have hP : (decide (c.2 ∈ vis) &&
            decide ((pre ++ c :: rest).countP (fun d => decide (d.1 ≤ c.1)) > half)) = true := by
          rw [← hcount]
          simp [hv, hcnt]
        rw [if_pos ⟨hv, hcnt⟩, if_pos hP, List.map_cons, ihh]
      · have hP : ¬ ((decide (c.2 ∈ vis) &&
            decide ((pre ++ c :: rest).countP (fun d => decide (d.1 ≤ c.1)) > half)) = true) := by
          rw [← hcount]
          simp [hv, hcnt]
        rw [if_neg (fun hand => hcnt hand.2), if_neg hP, ihh]
    · have hP : ¬ ((decide (c.2 ∈ vis) &&
          decide ((pre ++ c :: rest).countP (fun d => decide (d.1 ≤ c.1)) > half)) = true) := by
        simp [hv]
      rw [if_neg (fun hand => hv hand.1), if_neg hP, ihh]

theorem eligible_candidates_eq_spec (voters vis : Finset server_id_t) (a : acks_map_t) :
    eligible_loop vis (voters.card / 2) 0 (sorted_candidates_of voters a) =
      eligible_candidates_spec (voters.card / 2) vis (sorted_candidates_of voters a) := by
  have h := eligible_loop_eq_spec vis (voters.card / 2) (sorted_candidates_of voters a)
    [] (by simpa using sorted_candidates_ts_pairwise voters a)
  simpa [eligible_candidates_spec] using h

/-- C4: with no old primary, the elected primary is characterised by the
spec: candidates are the voters acking `secondary_need_primary`, sorted by
(version timestamp, server id); a candidate is eligible iff visible and at
least as up-to-date as strictly more than half of the voters (the
candidates of timestamp at most its own, itself included); the designated
`config.primary_replica` wins if eligible; otherwise, if it is non-nil,
visible and silent, election is deferred even though other candidates are
eligible; otherwise the last (most up-to-date) eligible candidate wins, and
none is emitted when no candidate is eligible. -/
theorem C4_election (o : contract_t) (cfg : shard_config_t) (a : acks_map_t)
    (m : connections_map_t) (s : String) (h : o.primary = none) :
    ((calculate_contract o cfg a m s).1).primary =
      (let vis := visible_voters_of (o.replicas ∪ cfg.all_replicas)
          (voters_after_change o cfg a).1 (voters_after_change o cfg a).2 m
       let elig := eligible_candidates_spec ((voters_after_change o cfg a).1.card / 2)
          vis (sorted_candidates_of (voters_after_change o cfg a).1 a)
       if cfg.primary_replica ∈ elig then
         some { server := cfg.primary_replica, hand_over := none, warm_shutdown := false }
       else if cfg.primary_replica ≠ nil_server ∧ cfg.primary_replica ∈ vis ∧
           List.lookup cfg.primary_replica a = none ∧ elig ≠ [] then
         none
       else
         (elig.getLast?).map (fun x =>
           { server := x, hand_over := none, warm_shutdown := false })) := by
  rw [calculate_contract_primary_none o cfg a m s h]
  simp only [elect_primary]
  rw [eligible_candidates_eq_spec]
  set vis := visible_voters_of (o.replicas ∪ cfg.all_replicas)
    (voters_after_change o cfg a).1 (voters_after_change o cfg a).2 m
  set elig := eligible_candidates_spec ((voters_after_change o cfg a).1.card / 2)
    vis (sorted_candidates_of (voters_after_change o cfg a).1 a)
  by_cases h1 : cfg.primary_replica ∈ elig
  · simp [h1]
  · by_cases hne : elig = []
    · simp [h1, hne]
    · by_cases hd : cfg.primary_replica ≠ nil_server ∧ cfg.primary_replica ∈ vis ∧
          List.lookup cfg.primary_replica a = none
      · simp [h1, hne, hd]
      · have hq : ¬ (cfg.primary_replica ≠ nil_server ∧ cfg.primary_replica ∈ vis ∧
            List.lookup cfg.primary_replica a = none ∧ elig ≠ []) :=
          fun hx => hd ⟨hx.1, hx.2.1, hx.2.2.1⟩
        simp only [if_neg h1, if_pos hne, if_neg hd, if_neg hq]

/-- C4, witness: scenario A — all three voters ack with equal versions, all
visible; the designated primary (server 2) is eligible and elected. -/
theorem C4_witness :
    ((calculate_contract ex4_old ex4_cfg ex4_acks conn_all "").1).primary =
      some { server := 2, hand_over := none, warm_shutdown := false } :=
  (C4_election ex4_old ex4_cfg ex4_acks conn_all "" rfl).trans (by decide)

/-! Claim C10: the calculator never touches `branch`; branch registration
happens only for a retained primary that acked `primary_need_branch`. -/

theorem driver_step_register_trace (oc : contract_t) (scfg : shard_config_t)
    (m : connections_map_t) (pfx : String) (si : Nat) :
    ∀ (l : List (region_t × acks_map_t))
      (acc : Nat × List (region_t × contract_t) ×
        List (region_t × branch_id_t) × List String)
      (rb : region_t × branch_id_t),
      rb ∈ (l.foldl (driver_step oc scfg m pfx si) acc).2.2.1 →
      rb ∈ acc.2.2.1 ∨
        ∃ ra ∈ l, ∃ sp p q, oc.primary = some p ∧
          ((calculate_contract oc scfg ra.2 m sp).1).primary = some q ∧
          q.server = p.server ∧
          ack_state_is ra.2 p.server ack_state_t.primary_need_branch = true ∧
          rb = (ra.1, requested_branch ra.2 p.server) := by
  intro l
  induction l with
  | nil =>
    intro acc rb h
    exact Or.inl h
  | cons ra rest ih =>
    intro acc rb h
    rw [List.foldl_cons] at h
    rcases ih (driver_step oc scfg m pfx si acc ra) rb h with h2 | h2
    · simp only [driver_step] at h2
      rw [List.mem_append] at h2
      rcases h2 with h3 | h3
      · exact Or.inl h3
      · right
        refine ⟨ra, List.mem_cons_self ra rest, ?_⟩
        revert h3
        cases ho : oc.primary with
        | none => intro h3; exact absurd h3 (by simp)
        | some p =>
          cases hn : ((calculate_contract oc scfg ra.2 m
              (if pfx = "" then ""
               else pfx ++ ": shard " ++ toString si ++ "." ++ toString acc.1 ++
                 "." ++ toString (get_cpu_shard_approx_number ra.1))).1).primary with
          | none => intro h3; exact absurd h3 (by simp)
          | some q =>
            intro h3
            have h4 : rb ∈ (if (decide (p.server = q.server) &&
                ack_state_is ra.2 p.server ack_state_t.primary_need_branch) = true
                then [(ra.1, requested_branch ra.2 p.server)] else []) := h3
            by_cases hcond : (decide (p.server = q.server) &&
                ack_state_is ra.2 p.server ack_state_t.primary_need_branch) = true
            · rw [if_pos hcond] at h4
              have hrb : rb = (ra.1, requested_branch ra.2 p.server) := by
                simpa using h4
              rw [Bool.and_eq_true, decide_eq_true_eq] at hcond
              exact ⟨_, p, q, rfl, hn, hcond.1.symm, hcond.2, hrb⟩
            · rw [if_neg hcond] at h4
              exact absurd h4 (by simp)
    · obtain ⟨ra2, hra2, rest2⟩ := h2
      exact Or.inr ⟨ra2, List.mem_cons_of_mem ra hra2, rest2⟩

theorem process_region_register_trace (vfbc : version_find_branch_common_t)
    (st : table_raft_state_t) (acks : acks_all_t) (m : connections_map_t)
    (pfx : String) (cpair : contract_id_t × region_t × contract_t) (si : Nat)
    (rb : region_t × branch_id_t)
    (h : rb ∈ (process_region vfbc st acks m pfx cpair si).2.1) :
    ∃ ra ∈ region_map_visit
        (frags_by_server_for vfbc (shard_sub_region st cpair.2.1 si) cpair.1 acks
          st.current_branches st.branch_history)
        (shard_sub_region st cpair.2.1 si),
      ∃ p q, cpair.2.2.primary = some p ∧
        (∀ sp, ((calculate_contract cpair.2.2
          (st.config.shards.getD si
            { all_replicas := ∅, voting_replicas := ∅,
              primary_replica := nil_server })
          ra.2 m sp).1).primary = some q) ∧
        q.server = p.server ∧
        ack_state_is ra.2 p.server ack_state_t.primary_need_branch = true ∧
        rb = (ra.1, requested_branch ra.2 p.server) := by
  revert h
  simp only [process_region]
  split_ifs with hreg
  · intro h
    exact absurd h (by simp)
  · intro h
    rcases driver_step_register_trace cpair.2.2 _ m pfx si _ (0, [], [], []) rb h with
      h2 | ⟨ra, hra, sp, p, q, hp, hq, hsq, hack, hrb⟩
    · exact absurd h2 (by simp)
    · exact ⟨ra, hra, p, q, hp, fun sp2 => hq, hsq, hack, hrb⟩

/-- C10: the returned contract's `branch` always equals the old contract's
`branch`, and every entry of `register_current_branches_out` arises from an
actual homogeneous sub-region of the driver — a member `ra` of the visit of
that contract's per-server fragment map over the (contract region, user
shard) intersection — whose old contract's primary was retained by
`calculate_contract` on that sub-region's acks and shard configuration
(same server, for every log prefix) and acked `primary_need_branch` there;
the registered entry is exactly that sub-region paired with the ack's
requested branch id. -/
theorem C10_branch_frame :
    (∀ (o : contract_t) (cfg : shard_config_t) (a : acks_map_t)
      (m : connections_map_t) (s : String),
      ((calculate_contract o cfg a m s).1).branch = o.branch) ∧
    (∀ (st : table_raft_state_t) (acks : acks_all_t) (m : connections_map_t)
      (vfbc : version_find_branch_common_t) (gen : Nat → contract_id_t)
      (pfx : String) (rb : region_t × branch_id_t),
      rb ∈ (calculate_all_contracts st acks m vfbc gen pfx).1.2.2 →
      ∃ cid creg oc, (cid, creg, oc) ∈ st.contracts ∧
        ∃ si, si < st.config.shards.length ∧
          ∃ ra ∈ region_map_visit
              (frags_by_server_for vfbc (shard_sub_region st creg si) cid acks
                st.current_branches st.branch_history)
              (shard_sub_region st creg si),
            ∃ p q, oc.primary = some p ∧
              (∀ sp, ((calculate_contract oc
                (st.config.shards.getD si
                  { all_replicas := ∅, voting_replicas := ∅,
                    primary_replica := nil_server })
                ra.2 m sp).1).primary = some q) ∧
              q.server = p.server ∧
              ack_state_is ra.2 p.server ack_state_t.primary_need_branch = true ∧
              rb = (ra.1, requested_branch ra.2 p.server)) := by
  constructor
  · intro o cfg a m s
    exact calculate_contract_branch_eq o cfg a m s
  · intro st acks m vfbc gen pfx rb h
    have h2 : rb ∈ (driver_results vfbc st acks m pfx).flatMap (fun r => r.2.1) := h
    rw [List.mem_flatMap] at h2
    obtain ⟨r, hr, hrb⟩ := h2
    unfold driver_results at hr
    rw [List.mem_flatMap] at hr
    obtain ⟨cpair, hcp, hrmap⟩ := hr
    rw [List.mem_map] at hrmap
    obtain ⟨si, hsi, hrpr⟩ := hrmap
    rw [← hrpr] at hrb
    obtain ⟨ra, hra, p, q, hp, hq, hsq, hack, hreq⟩ :=
      process_region_register_trace vfbc st acks m pfx cpair si rb hrb
    exact ⟨cpair.1, cpair.2.1, cpair.2.2, hcp, si, List.mem_range.mp hsi, ra, hra,
      p, q, hp, hq, hsq, hack, hreq⟩

/-- C10, witness: the `primary_need_branch` scenario registers exactly
(its one sub-region, branch 7), produced by the retained primary's ack for
that sub-region. -/
theorem C10_witness :
    ∃ cid creg oc, (cid, creg, oc) ∈ ex10_state.contracts ∧
      ∃ si, si < ex10_state.config.shards.length ∧
        ∃ ra ∈ region_map_visit
            (frags_by_server_for ex_vfbc (shard_sub_region ex10_state creg si) cid
              ex10_acks ex10_state.current_branches ex10_state.branch_history)
            (shard_sub_region ex10_state creg si),
          ∃ p q, oc.primary = some p ∧
            (∀ sp, ((calculate_contract oc
              (ex10_state.config.shards.getD si
                { all_replicas := ∅, voting_replicas := ∅,
                  primary_replica := nil_server })
              ra.2 conn_all sp).1).primary = some q) ∧
            q.server = p.server ∧
            ack_state_is ra.2 p.server ack_state_t.primary_need_branch = true ∧
            ((⟨0, 4, 0, 10⟩ : region_t), (7 : branch_id_t)) =
              (ra.1, requested_branch ra.2 p.server) :=
  C10_branch_frame.2 ex10_state ex10_acks conn_all ex_vfbc ex10_gen ""
    (⟨0, 4, 0, 10⟩, 7) (by decide)

/-! Claim C9: log lines are observational only. -/

theorem calculate_contract_fst_pfx (o : contract_t) (cfg : shard_config_t)
    (a : acks_map_t) (m : connections_map_t) (p q : String) :
    (calculate_contract o cfg a m p).1 = (calculate_contract o cfg a m q).1 := rfl

theorem driver_step_fold_pfx (oc : contract_t) (scfg : shard_config_t)
    (m : connections_map_t) (si : Nat) (p q : String) :
    ∀ (l : List (region_t × acks_map_t))
      (acc1 acc2 : Nat × List (region_t × contract_t) ×
        List (region_t × branch_id_t) × List String),
      acc1.2.1 = acc2.2.1 → acc1.2.2.1 = acc2.2.2.1 →
      ((l.foldl (driver_step oc scfg m p si) acc1).2.1 =
        (l.foldl (driver_step oc scfg m q si) acc2).2.1) ∧
      ((l.foldl (driver_step oc scfg m p si) acc1).2.2.1 =
        (l.foldl (driver_step oc scfg m q si) acc2).2.2.1) := by
  intro l
  induction l with
  | nil =>
    intro acc1 acc2 h1 h2
    exact ⟨h1, h2⟩
  | cons ra rest ih =>
    intro acc1 acc2 h1 h2
    rw [List.foldl_cons, List.foldl_cons]
    refine ih _ _ ?_ ?_
    · have e1 : (driver_step oc scfg m p si acc1 ra).2.1 =
          acc1.2.1 ++ [(ra.1, (calculate_contract oc scfg ra.2 m "").1)] := rfl
      have e2 : (driver_step oc scfg m q si acc2 ra).2.1 =
          acc2.2.1 ++ [(ra.1, (calculate_contract oc scfg ra.2 m "").1)] := rfl
      rw [e1, e2, h1]
    · have e1 : (driver_step oc scfg m p si acc1 ra).2.2.1 =
          acc1.2.2.1 ++
            (match oc.primary, ((calculate_contract oc scfg ra.2 m "").1).primary with
             | some p2, some q2 =>
               if (decide (p2.server = q2.server) &&
                   ack_state_is ra.2 p2.server ack_state_t.primary_need_branch) = true
               then [(ra.1, requested_branch ra.2 p2.server)]
               else []
             | _, _ => []) := rfl
      have e2 : (driver_step oc scfg m q si acc2 ra).2.2.1 =
          acc2.2.2.1 ++
            (match oc.primary, ((calculate_contract oc scfg ra.2 m "").1).primary with
             | some p2, some q2 =>
               if (decide (p2.server = q2.server) &&
                   ack_state_is ra.2 p2.server ack_state_t.primary_need_branch) = true
               then [(ra.1, requested_branch ra.2 p2.server)]
               else []
             | _, _ => []) := rfl
      rw [e1, e2, h2]

theorem process_region_outputs_pfx (vfbc : version_find_branch_common_t)
    (st : table_raft_state_t) (acks : acks_all_t) (m : connections_map_t)
    (cpair : contract_id_t × region_t × contract_t) (si : Nat) (p q : String) :
    ((process_region vfbc st acks m p cpair si).1 =
      (process_region vfbc st acks m q cpair si).1) ∧
    ((process_region vfbc st acks m p cpair si).2.1 =
      (process_region vfbc st acks m q cpair si).2.1) := by
  simp only [process_region]
  split_ifs with hreg
  · exact ⟨rfl, rfl⟩
  · exact driver_step_fold_pfx cpair.2.2 _ m si p q _ (0, [], [], []) (0, [], [], [])
      rfl rfl

theorem driver_results_proj_pfx (vfbc : version_find_branch_common_t)
    (st : table_raft_state_t) (acks : acks_all_t) (m : connections_map_t)
    (p q : String) :
    (driver_results vfbc st acks m p).map (fun r => (r.1, r.2.1)) =
      (driver_results vfbc st acks m q).map (fun r => (r.1, r.2.1)) := by
  unfold driver_results
  rw [List.map_flatMap, List.map_flatMap]
  apply List.flatMap_congr
  intro cpair _
  rw [List.map_map, List.map_map]
  apply List.map_congr_left
  intro si _
  have h := process_region_outputs_pfx vfbc st acks m cpair si p q
  show ((process_region vfbc st acks m p cpair si).1,
      (process_region vfbc st acks m p cpair si).2.1) =
    ((process_region vfbc st acks m q cpair si).1,
      (process_region vfbc st acks m q cpair si).2.1)
  rw [h.1, h.2]

theorem flatMap_proj_components {α β γ : Type} :
    ∀ (r1 r2 : List (List α × List β × γ)),
      r1.map (fun r => (r.1, r.2.1)) = r2.map (fun r => (r.1, r.2.1)) →
      (r1.flatMap (fun r => r.1) = r2.flatMap (fun r => r.1)) ∧
      (r1.flatMap (fun r => r.2.1) = r2.flatMap (fun r => r.2.1)) := by
  intro r1
  induction r1 with
  | nil =>
    intro r2 h
    have h2 : r2 = [] := by
      cases r2 with
      | nil => rfl
      | cons x xs => exact absurd h.symm (by simp)
    rw [h2]
    exact ⟨rfl, rfl⟩
  | cons x xs ih =>
    intro r2 h
    cases r2 with
    | nil => exact absurd h (by simp)
    | cons y ys =>
      rw [List.map_cons, List.map_cons] at h
      injection h with hxy hxs
      injection hxy with hx1 hx2
      obtain ⟨ih1, ih2⟩ := ih ys hxs
      constructor
      · rw [List.flatMap_cons, List.flatMap_cons, hx1, ih1]
      · rw [List.flatMap_cons, List.flatMap_cons, hx2, ih2]

/-- C9: the contract computed by `calculate_contract` and the diff outputs
of `calculate_all_contracts` (removed ids, added contracts, branch
registrations) are identical for any two log prefixes; log lines are
observational only. -/
theorem C9_log_prefix_independent :
    (∀ (o : contract_t) (cfg : shard_config_t) (a : acks_map_t)
      (m : connections_map_t) (p q : String),
      (calculate_contract o cfg a m p).1 = (calculate_contract o cfg a m q).1) ∧
    (∀ (st : table_raft_state_t) (acks : acks_all_t) (m : connections_map_t)
      (vfbc : version_find_branch_common_t) (gen : Nat → contract_id_t)
      (p q : String),
      (calculate_all_contracts st acks m vfbc gen p).1 =
        (calculate_all_contracts st acks m vfbc gen q).1) := by
  constructor
  · intro o cfg a m p q
    exact calculate_contract_fst_pfx o cfg a m p q
  · intro st acks m vfbc gen p q
    obtain ⟨h1, h2⟩ := flatMap_proj_components
      (driver_results vfbc st acks m p) (driver_results vfbc st acks m q)
      (driver_results_proj_pfx vfbc st acks m p q)
    simp only [calculate_all_contracts]
    rw [h1, h2]

/-! Claim C7: the diff step. -/

theorem lookup_region_unique :
    ∀ (nm : List (region_t × contract_t)),
      (nm.map (fun e => e.1)).Nodup →
      ∀ pp ∈ nm, lookup_region nm pp.1 = some pp.2 := by
  intro nm
  induction nm with
  | nil =>
    intro _ pp hpp
    exact absurd hpp (by simp)
  | cons e rest ih =>
    intro hnd pp hpp
    rw [List.map_cons, List.nodup_cons] at hnd
    obtain ⟨hkey, hnd_rest⟩ := hnd
    rcases List.mem_cons.mp hpp with h | h
    · rw [h]
      unfold lookup_region
      rw [List.find?_cons_of_pos _ (by simp)]
      rfl
    · have hne : ¬ (e.1 = pp.1) := by
        intro hx
        exact hkey (hx ▸ List.mem_map_of_mem (fun e2 => e2.1) h)
      unfold lookup_region
      rw [List.find?_cons_of_neg _ (by simpa using hne)]
      exact ih hnd_rest pp h

theorem lookup_region_erase_ne :
    ∀ (nm : List (region_t × contract_t)) (r r2 : region_t), r2 ≠ r →
      lookup_region (erase_region nm r) r2 = lookup_region nm r2 := by
  intro nm
  induction nm with
  | nil =>
    intro r r2 _
    rfl
  | cons e rest ih =>
    intro r r2 hne
    unfold erase_region
    by_cases he : e.1 = r
    · rw [List.eraseP_cons_of_pos (by simpa using he)]
      unfold lookup_region
      rw [List.find?_cons_of_neg _ (by simp [he, Ne.symm hne])]
    · rw [List.eraseP_cons_of_neg (by simpa using he)]
      by_cases he2 : e.1 = r2
      · unfold lookup_region
        rw [List.find?_cons_of_pos _ (by simpa using he2),
          List.find?_cons_of_pos _ (by simpa using he2)]
      · unfold lookup_region
        rw [List.find?_cons_of_neg _ (by simpa using he2),
          List.find?_cons_of_neg _ (by simpa using he2)]
        exact ih r r2 hne

theorem erase_region_eq_filter :
    ∀ (nm : List (region_t × contract_t)) (r : region_t),
      (nm.map (fun e => e.1)).Nodup →
      erase_region nm r = nm.filter (fun pp => ! decide (pp.1 = r)) := by
  intro nm
  induction nm with
  | nil =>
    intro r _
    rfl
  | cons e rest ih =>
    intro r hnd
    rw [List.map_cons, List.nodup_cons] at hnd
    obtain ⟨hkey, hnd_rest⟩ := hnd
    unfold erase_region
    by_cases he : e.1 = r
    · rw [List.eraseP_cons_of_pos (by simpa using he), List.filter_cons_of_neg
        (by simp [he])]
      rw [(List.filter_eq_self).mpr]
      intro pp hpp
      have : ¬ (pp.1 = r) := by
        intro hx
        exact hkey ((he.trans hx.symm) ▸ List.mem_map_of_mem (fun e2 => e2.1) hpp)
      simpa using this
    · rw [List.eraseP_cons_of_neg (by simpa using he), List.filter_cons_of_pos
        (by simpa using he)]
      congr 1
      exact ih r hnd_rest

theorem erase_region_keys_nodup (nm : List (region_t × contract_t)) (r : region_t)
    (hnd : (nm.map (fun e => e.1)).Nodup) :
    ((erase_region nm r).map (fun e => e.1)).Nodup :=
  ((List.eraseP_sublist nm).map (fun e => e.1)).nodup hnd

theorem diff_loop_cons (e : contract_id_t × region_t × contract_t)
    (rest : List (contract_id_t × region_t × contract_t))
    (nm : List (region_t × contract_t)) :
    diff_loop (e :: rest) nm =
      (match lookup_region nm e.2.1 with
       | some c =>
         if c = e.2.2 then diff_loop rest (erase_region nm e.2.1)
         else ((diff_loop rest nm).1, e.1 :: (diff_loop rest nm).2)
       | none => ((diff_loop rest nm).1, e.1 :: (diff_loop rest nm).2)) := rfl

theorem diff_loop_spec :
    ∀ (old : List (contract_id_t × region_t × contract_t))
      (nm : List (region_t × contract_t)),
      (old.map (fun e => e.2.1)).Nodup → (nm.map (fun e => e.1)).Nodup →
      diff_loop old nm =
        (nm.filter (fun pp => ! old.any (fun e =>
            decide (e.2.1 = pp.1) && decide (e.2.2 = pp.2))),
         (old.filter (fun e =>
            ! decide (lookup_region nm e.2.1 = some e.2.2))).map (fun e => e.1)) := by
  intro old
  induction old with
  | nil =>
    intro nm _ _
    simp [diff_loop]
  | cons e rest ih =>
    intro nm hnd_old hnd_nm
    rw [List.map_cons, List.nodup_cons] at hnd_old
    obtain ⟨hereg, hnd_rest⟩ := hnd_old
    have hkey_ne : ∀ e2 ∈ rest, ¬ (e2.2.1 = e.2.1) := by
      intro e2 he2 hx
      exact hereg (hx ▸ List.mem_map_of_mem (fun e3 => e3.2.1) he2)
    cases hl : lookup_region nm e.2.1 with
    | some c =>
      by_cases hc : c = e.2.2
      · -- hit with equal value: erase and recurse
        have hstep0 := diff_loop_cons e rest nm
        rw [hl] at hstep0
        have hstep1 : diff_loop (e :: rest) nm =
            (if c = e.2.2 then diff_loop rest (erase_region nm e.2.1)
             else ((diff_loop rest nm).1, e.1 :: (diff_loop rest nm).2)) := hstep0
        have hstep : diff_loop (e :: rest) nm =
            diff_loop rest (erase_region nm e.2.1) := by
          rw [hstep1, if_pos hc]
        have hnd_erase := erase_region_keys_nodup nm e.2.1 hnd_nm
        rw [hstep, ih (erase_region nm e.2.1) hnd_rest hnd_erase]
        rw [Prod.mk.injEq]
        constructor
        · rw [erase_region_eq_filter nm e.2.1 hnd_nm, List.filter_filter]
          apply List.filter_congr
          intro pp hpp
          rw [List.any_cons]
          by_cases hpk : pp.1 = e.2.1
          · have hval : pp.2 = e.2.2 := by
              have hu := lookup_region_unique nm hnd_nm pp hpp
              rw [hpk, hl] at hu
              injection hu with hu2
              rw [← hc, hu2]
            simp [hpk, hval]
          · have hx : ¬ (e.2.1 = pp.1) := fun h2 => hpk h2.symm
            simp [hpk, hx]
        · have hecond : (! decide (lookup_region nm e.2.1 = some e.2.2)) = false := by
            rw [hl, hc]
            simp
          rw [List.filter_cons_of_neg (by rw [hecond]; simp)]
          congr 1
          apply List.filter_congr
          intro e2 he2
          rw [lookup_region_erase_ne nm e.2.1 e2.2.1 (hkey_ne e2 he2)]
      · -- hit with different value: remove
        have hstep0 := diff_loop_cons e rest nm
        rw [hl] at hstep0
        have hstep1 : diff_loop (e :: rest) nm =
            (if c = e.2.2 then diff_loop rest (erase_region nm e.2.1)
             else ((diff_loop rest nm).1, e.1 :: (diff_loop rest nm).2)) := hstep0
        have hstep : diff_loop (e :: rest) nm =
            ((diff_loop rest nm).1, e.1 :: (diff_loop rest nm).2) := by
          rw [hstep1, if_neg hc]
        have hmiss : ∀ pp ∈ nm, (decide (e.2.1 = pp.1) && decide (e.2.2 = pp.2)) = false := by
          intro pp hpp
          by_cases hpk : e.2.1 = pp.1
          · have hu := lookup_region_unique nm hnd_nm pp hpp
            rw [← hpk, hl] at hu
            injection hu with hu2
            have : ¬ (e.2.2 = pp.2) := by
              rw [hu2] at hc
              exact fun h2 => hc h2.symm
            simp [this]
          · simp [hpk]
        rw [hstep, ih nm hnd_rest hnd_nm]
        rw [Prod.mk.injEq]
        constructor
        · apply List.filter_congr
          intro pp hpp
          rw [List.any_cons, hmiss pp hpp]
          simp
        · have hecond : (! decide (lookup_region nm e.2.1 = some e.2.2)) = true := by
            rw [hl]
            simp [Option.some.injEq, hc]
          rw [List.filter_cons_of_pos (by rw [hecond])]
          rw [List.map_cons]
      | none =>
      -- miss: remove
      have hstep0 := diff_loop_cons e rest nm
      rw [hl] at hstep0
      have hstep : diff_loop (e :: rest) nm =
          ((diff_loop rest nm).1, e.1 :: (diff_loop rest nm).2) := hstep0
      have hmiss : ∀ pp ∈ nm, (decide (e.2.1 = pp.1) && decide (e.2.2 = pp.2)) = false := by
        intro pp hpp
        by_cases hpk : e.2.1 = pp.1
        · have hu := lookup_region_unique nm hnd_nm pp hpp
          rw [← hpk, hl] at hu
          exact Option.noConfusion hu
        · simp [hpk]
      rw [hstep, ih nm hnd_rest hnd_nm]
      rw [Prod.mk.injEq]
      constructor
      · apply List.filter_congr
        intro pp hpp
        rw [List.any_cons, hmiss pp hpp]
        simp
      · have hecond : (! decide (lookup_region nm e.2.1 = some e.2.2)) = true := by
          rw [hl]
          simp
        rw [List.filter_cons_of_pos (by rw [hecond])]
        rw [List.map_cons]

/-- C7: in the diff step, an old contract entry keeps its id — appearing in
neither `remove_contracts_out` nor `add_contracts_out` — exactly when the
coalesced and re-sliced new contract map carries its exact region with a
value-equal contract; otherwise the id is removed, and every entry
remaining in the new map is emitted under a freshly generated id.
(Hypotheses: distinct regions and ids among the old contracts and distinct
regions in the new map, as guaranteed by the `std::map` containers in the
source, and freshness of the generated ids.) -/
theorem C7_diff_step (old : List (contract_id_t × region_t × contract_t))
    (nm : List (region_t × contract_t)) (gen : Nat → contract_id_t)
    (hreg : (old.map (fun e => e.2.1)).Nodup)
    (hids : (old.map (fun e => e.1)).Nodup)
    (hkeys : (nm.map (fun e => e.1)).Nodup)
    (hfresh : ∀ k, gen k ∉ old.map (fun e => e.1)) :
    (∀ e ∈ old, (e.1 ∈ (diff_contracts old nm gen).1 ↔
      ¬ lookup_region nm e.2.1 = some e.2.2)) ∧
    ((diff_contracts old nm gen).2 =
      (nm.filter (fun pp => ! old.any (fun e2 =>
        decide (e2.2.1 = pp.1) && decide (e2.2.2 = pp.2)))).enum.map
        (fun pr => (gen pr.1, pr.2.1, pr.2.2))) ∧
    (∀ e ∈ old, lookup_region nm e.2.1 = some e.2.2 →
      e.1 ∉ (diff_contracts old nm gen).1 ∧
      ∀ x ∈ (diff_contracts old nm gen).2, x.1 ≠ e.1) := by
  have hd := diff_loop_spec old nm hreg hkeys
  have h1 : (diff_contracts old nm gen).1 =
      (old.filter (fun e => ! decide (lookup_region nm e.2.1 = some e.2.2))).map
        (fun e => e.1) := by
    unfold diff_contracts
    rw [hd]
  have h2 : (diff_contracts old nm gen).2 =
      (nm.filter (fun pp => ! old.any (fun e2 =>
        decide (e2.2.1 = pp.1) && decide (e2.2.2 = pp.2)))).enum.map
        (fun pr => (gen pr.1, pr.2.1, pr.2.2)) := by
    unfold diff_contracts
    rw [hd]
  have hiff : ∀ e ∈ old, (e.1 ∈ (diff_contracts old nm gen).1 ↔
      ¬ lookup_region nm e.2.1 = some e.2.2) := by
    intro e he
    rw [h1]
    constructor
    · intro hmem
      rw [List.mem_map] at hmem
      obtain ⟨e2, he2, heq⟩ := hmem
      rw [List.mem_filter] at he2
      have hee : e2 = e := List.inj_on_of_nodup_map hids he2.1 he heq
      have := he2.2
      rw [hee] at this
      simpa using this
    · intro hnm
      rw [List.mem_map]
      exact ⟨e, List.mem_filter.mpr ⟨he, by simpa using hnm⟩, rfl⟩
  refine ⟨hiff, h2, ?_⟩
  intro e he hhit
  constructor
  · intro hmem
    exact ((hiff e he).mp hmem) hhit
  · intro x hx
    rw [h2, List.mem_map] at hx
    obtain ⟨pr, _, hxeq⟩ := hx
    rw [← hxeq]
    intro hgen
    have hg : gen pr.1 = e.1 := hgen
    exact hfresh pr.1 (hg ▸ List.mem_map_of_mem (fun e2 => e2.1) he)

/-- C7, witness: the first old contract is a value-equal hit (id kept), the
second is not (id removed); the remaining new entry gets the fresh id 50. -/
theorem C7_witness :
    ((1 : contract_id_t) ∉ (diff_contracts ex7_old ex7_nm ex7_gen).1 ∧
      ∀ x ∈ (diff_contracts ex7_old ex7_nm ex7_gen).2, x.1 ≠ 1) :=
  (C7_diff_step ex7_old ex7_nm ex7_gen (by decide) (by decide) (by decide)
    (by
      intro k
      simp [ex7_old, ex7_gen]
      show ¬ ((50 + k : Nat) = 1) ∧ ¬ ((50 + k : Nat) = 2)
      omega)).2.2
    (1, ⟨0, 4, 0, 5⟩, ex7_cA) (by decide) (by decide)

/-! Claim C8: repeated invocations on unchanged inputs. -/

theorem diff_contracts_gen_payload
    (old : List (contract_id_t × region_t × contract_t))
    (nm : List (region_t × contract_t)) (gen1 gen2 : Nat → contract_id_t) :
    ((diff_contracts old nm gen1).2).map (fun e => (e.2.1, e.2.2)) =
      ((diff_contracts old nm gen2).2).map (fun e => (e.2.1, e.2.2)) := by
  unfold diff_contracts
  rw [List.map_map, List.map_map]
  rfl

/-- C8, counterexample: with the old contracts not yet mentioning replica 1
of the configuration, any invocation — in particular the second of two
invocations on unchanged old Raft state, ack map and connections map, here
with its own fresh uuid supply — emits a nonempty `remove_contracts`
(both old ids), not an empty diff. -/
theorem C8_counterexample :
    (calculate_all_contracts ex8_state [] conn_none ex_vfbc ex8_genA "").1.1 =
      [100, 101] ∧
    ¬ (calculate_all_contracts ex8_state [] conn_none ex_vfbc ex8_genB "").1.1 = [] := by
  constructor
  · decide
  · decide

/-- C8, as amended: the diff is a deterministic function of (old state, ack
map, connections map): two invocations on identical inputs emit identical
`remove_contracts` and add-contract payloads regardless of the fresh uuid
supplies, so the second run's diff is empty iff the first run's is — it is
not unconditionally empty. -/
theorem C8_deterministic_diff (st : table_raft_state_t) (acks : acks_all_t)
    (m : connections_map_t) (vfbc : version_find_branch_common_t)
    (gen1 gen2 : Nat → contract_id_t) (pfx : String) :
    ((calculate_all_contracts st acks m vfbc gen1 pfx).1.1 =
      (calculate_all_contracts st acks m vfbc gen2 pfx).1.1) ∧
    ((calculate_all_contracts st acks m vfbc gen1 pfx).1.2.1.map
        (fun e => (e.2.1, e.2.2)) =
      (calculate_all_contracts st acks m vfbc gen2 pfx).1.2.1.map
        (fun e => (e.2.1, e.2.2))) ∧
    ((calculate_all_contracts st acks m vfbc gen2 pfx).1.1 = [] ↔
      (calculate_all_contracts st acks m vfbc gen1 pfx).1.1 = []) := by
  refine ⟨rfl, ?_, Iff.rfl⟩
  simp only [calculate_all_contracts]
  exact diff_contracts_gen_payload st.contracts _ gen1 gen2
